import Mathlib

/-!
Verification of the Nickchatbot repository against its specification.

The development shallowly embeds the text-processing pipeline of
`src/components/Chatbot.tsx` (`convertLinksToHTML`), the response formatter
and orchestrator of `src/lib/chatbot.ts` (`formatResponseWithLinks`,
`processChatMessage`, `handleProblemSelection`), the scraper/cache layer of
the scraper module (`fetchGtechProducts`, `getComprehensiveWebsiteData`), and
the knowledge search of `src/lib/knowledgeData.ts` (`searchKnowledge`).

Strings are modelled as `List Char` (`Str`).  JavaScript regular-expression
passes are compiled, one by one, into explicit scanners over `Str`; each
scanner carries a comment citing the JS pattern it implements.  Recursive
scanners take an explicit fuel argument (always called with more fuel than
the input length) so that all definitions compute by kernel reduction.
-/

/-- Strings are modelled as lists of characters. -/
abbrev Str := List Char

/-- Coerce a Lean string literal to the `Str` model. -/
def str (s : String) : Str := s.data

/-- Substring occurrence test: does `pat` occur somewhere in `hay`?
Models JavaScript `hay.includes(pat)`. -/
def containsSub (hay pat : Str) : Bool :=
  match hay with
  | [] => pat.isEmpty
  | _ :: t => pat.isPrefixOf hay || containsSub t pat

/-- Split `s` at the first occurrence of `pat` (nonempty patterns only):
`splitFirst pat s = some (a, b)` when `s = a ++ pat ++ b` and `pat` does not
occur earlier.  Models JavaScript `s.indexOf(pat)`. -/
def splitFirst (pat : Str) (s : Str) : Option (Str × Str) :=
  match s with
  | [] => none
  | c :: t =>
    if pat.isPrefixOf s then some ([], s.drop pat.length)
    else (splitFirst pat t).map (fun p => (c :: p.1, p.2))

/-- Replace the first occurrence of `pat` in `s` by `repl` (no-op when absent).
Models JavaScript `s.replace(pat, repl)` for a plain string pattern whose
replacement contains no `$` substitution sequences. -/
def replaceFirst (pat repl s : Str) : Str :=
  match splitFirst pat s with
  | none => s
  | some (a, b) => a ++ repl ++ b

/-- One global-rewrite pass: `matchAt` tries to recognise a pattern at the
current position, returning the replacement text and the remaining input
after the matched region.  On failure the scanner advances one character.
Replacements are not rescanned, matching JavaScript `String.replace` with a
global regex.  Fuel dominates the input length at every call site. -/
def gsub (matchAt : Str → Option (Str × Str)) : Nat → Str → Str
  | 0, s => s
  | _ + 1, [] => []
  | fuel + 1, c :: t =>
    match matchAt (c :: t) with
    | some (repl, rest) => repl ++ gsub matchAt fuel rest
    | none => c :: gsub matchAt fuel t

/-- ASCII lowercasing of one character, as JavaScript `toLowerCase` acts on
the ASCII range (the repository only compares ASCII data): code points
65-90 shift to 97-122, everything else is unchanged. -/
def lcChar (c : Char) : Char :=
  if 65 ≤ c.toNat ∧ c.toNat ≤ 90 then Char.ofNat (c.toNat + 32) else c

/-- ASCII-lowercase a string; models JavaScript `s.toLowerCase()`. -/
def lcStr (s : Str) : Str := s.map lcChar

/-- Case-insensitive prefix test (ASCII case folding). -/
def isPrefixOfCI (pat s : Str) : Bool :=
  (lcStr pat).isPrefixOf (lcStr s)

/-- JavaScript whitespace test for `\s` (the characters actually occurring in
the repository's data: space, tab, newline, carriage return, form feed,
vertical tab). -/
def isWs (c : Char) : Bool :=
  c = ' ' || c = '\t' || c = '\n' || c = '\r' || c = '\x0c' || c = '\x0b'

/-- Decimal digits of a natural number, most significant first
(used to build placeholder tokens such as `__EXISTING_LINK_3__`). -/
def natDigits (n : Nat) : Str := Nat.toDigits 10 n

-- sanity: basic evaluation of the helpers
example : containsSub (str "hello world") (str "lo w") = true := by decide
example : splitFirst (str "<a") (str "xy<a href") =
    some (str "xy", str " href") := by decide
example : replaceFirst (str "ab") (str "Z") (str "xabyab") = str "xZyab" := by
  decide
example : lcStr (str "AbC") = str "abc" := by decide
example : natDigits 12 = str "12" := by decide
example : str "don't worry" = ['d','o','n','\'','t',' ','w','o','r','r','y'] := by
  decide

/-! ## The Linkifier: `convertLinksToHTML` (src/components/Chatbot.tsx, lines 63-452)

Each JS processing step is embedded as its own definition, in source order.
-/

/-- HTML-escape one character, per the `escapeHtml` map
(Chatbot.tsx lines 67-76). -/
def escChar (c : Char) : Str :=
  if c = '&' then str "&amp;"
  else if c = '<' then str "&lt;"
  else if c = '>' then str "&gt;"
  else if c = '"' then str "&quot;"
  else if c = '\'' then str "&#039;"
  else [c]

/-- `escapeHtml` (Chatbot.tsx lines 67-76): `str.replace(/[&<>"']/g, m => map[m])`. -/
def escapeHtml (s : Str) : Str := s.flatMap escChar

/-- Placeholder token `__EXISTING_LINK_<k>__` (Chatbot.tsx line 124). -/
def phExisting (k : Nat) : Str := str "__EXISTING_LINK_" ++ natDigits k ++ str "__"

/-- Placeholder token `__BR_TAG_<k>__` (Chatbot.tsx line 137). -/
def phBr (k : Nat) : Str := str "__BR_TAG_" ++ natDigits k ++ str "__"

/-- Placeholder token `__BOLD_TAG_<k>__` (Chatbot.tsx line 153). -/
def phBold (k : Nat) : Str := str "__BOLD_TAG_" ++ natDigits k ++ str "__"

/-- Placeholder token `__MARKDOWN_LINK_<k>__` (Chatbot.tsx line 212). -/
def phMarkdown (k : Nat) : Str := str "__MARKDOWN_LINK_" ++ natDigits k ++ str "__"

/-- Placeholder token `__VALID_TAG_<k>__` (Chatbot.tsx line 425). -/
def phValid (k : Nat) : Str := str "__VALID_TAG_" ++ natDigits k ++ str "__"

/-- Step 1 anchor scan (Chatbot.tsx lines 89-119): repeatedly locate `<a`,
then the next `>`, then the next `</a>`; the spanned text is an anchor match
when it contains `href`, otherwise scanning resumes just after the `>`.
Returns the decomposition of the input into literal chunks (`.inl`) and
anchor matches (`.inr`). -/
def scanAnchors : Nat → Str → List (Str ⊕ Str)
  | 0, s => [.inl s]
  | fuel + 1, s =>
    match splitFirst (str "<a") s with
    | none => [.inl s]
    | some (pre, afterOpen) =>
      match splitFirst (str ">") afterOpen with
      | none => [.inl s]
      | some (mid, afterGt) =>
        match splitFirst (str "</a>") afterGt with
        | none => [.inl s]
        | some (mid2, afterClose) =>
          let fullMatch := str "<a" ++ mid ++ str ">" ++ mid2 ++ str "</a>"
          if containsSub fullMatch (str "href") then
            .inl pre :: .inr fullMatch :: scanAnchors fuel afterClose
          else
            .inl (pre ++ str "<a" ++ mid ++ str ">") ::
              scanAnchors fuel (mid2 ++ str "</a>" ++ afterClose)

/-- The anchor matches of a step-1 decomposition, in text order. -/
def segAnchors (segs : List (Str ⊕ Str)) : List Str :=
  segs.filterMap (fun x => match x with | .inr a => some a | .inl _ => none)

/-- Rebuild the text of Chatbot.tsx lines 122-130: the `j`-th anchor match
(text order, `m` total) is replaced by placeholder number `m - 1 - j`,
because the replacement loop walks the matches from last to first while the
placeholder counter increments from 0. -/
def renderAnchorSegs (ph : Nat → Str) (m : Nat) : List (Str ⊕ Str) → Nat → Str
  | [], _ => []
  | .inl l :: rest, j => l ++ renderAnchorSegs ph m rest j
  | .inr _ :: rest, j => ph (m - 1 - j) ++ renderAnchorSegs ph m rest (j + 1)

/-- The `existingLinks` array (Chatbot.tsx lines 122-130) in push order:
entry `k` pairs placeholder `k` with the `(m-1-k)`-th anchor match. -/
def anchorAList (ph : Nat → Str) (segs : List (Str ⊕ Str)) : List (Str × Str) :=
  ((segAnchors segs).reverse).enum.map (fun p => (ph p.1, p.2))

-- sanity: a lone valid anchor is recognised whole
example :
    scanAnchors 100 (str "x<a href=\"/p\">t</a>y") =
      [.inl (str "x"), .inr (str "<a href=\"/p\">t</a>"), .inl (str "y")] := by
  decide
-- sanity: an `<a ...>` without `href` is skipped past its `>`
example :
    scanAnchors 100 (str "<a id=q>t</a>") =
      [.inl (str "<a id=q>"), .inl (str "t</a>")] := by decide

/-- Capturing global-rewrite pass for the placeholder-substituting callbacks
(Chatbot.tsx lines 136-143 and 152-159): the `k`-th match (0-based, in text
order) is replaced by `ph (k)` and its payload (the HTML to restore later) is
collected in order. -/
def gsubCap (matchAt : Str → Option (Str × Str)) (ph : Nat → Str) :
    Nat → Nat → Str → Str × List Str
  | 0, _, s => (s, [])
  | _ + 1, _, [] => ([], [])
  | fuel + 1, n, c :: t =>
    match matchAt (c :: t) with
    | some (payload, rest) =>
      let p := gsubCap matchAt ph fuel (n + 1) rest
      (ph n ++ p.1, payload :: p.2)
    | none =>
      let p := gsubCap matchAt ph fuel n t
      (c :: p.1, p.2)

/-- Matcher for `/<br\s*\/?>/gi` (Chatbot.tsx line 136).  The payload is the
normalised `<br>` stored in `existingBreaks` (line 140). -/
def brMatch (s : Str) : Option (Str × Str) :=
  if isPrefixOfCI (str "<br") s then
    let r1 := (s.drop 3).dropWhile isWs
    match r1 with
    | '/' :: '>' :: rest => some (str "<br>", rest)
    | '>' :: rest => some (str "<br>", rest)
    | _ => none
  else none

/-- Non-greedy closing scan for `/\*\*(.+?)\*\*/g`: find the shortest
nonempty newline-free content followed by `**`. -/
def boldClose : Nat → Str → Option (Str × Str)
  | 0, _ => none
  | _ + 1, [] => none
  | fuel + 1, c :: t =>
    if c = '\n' then none
    else if (str "**").isPrefixOf t then some ([c], t.drop 2)
    else (boldClose fuel t).map (fun p => (c :: p.1, p.2))

/-- Matcher for `/\*\*(.+?)\*\*/g → <strong>$1</strong>`
(Chatbot.tsx line 146). -/
def boldMatch (s : Str) : Option (Str × Str) :=
  if (str "**").isPrefixOf s then
    (boldClose s.length (s.drop 2)).map
      (fun p => (str "<strong>" ++ p.1 ++ str "</strong>", p.2))
  else none

/-- Non-greedy closing scan for `/<strong>(.*?)<\/strong>/gi`: shortest
(possibly empty) newline-free content followed by a case-insensitive
`</strong>`. -/
def strongClose : Nat → Str → Option (Str × Str)
  | 0, s =>
    if isPrefixOfCI (str "</strong>") s then some ([], s.drop 9) else none
  | fuel + 1, s =>
    if isPrefixOfCI (str "</strong>") s then some ([], s.drop 9)
    else
      match s with
      | [] => none
      | c :: t =>
        if c = '\n' then none
        else (strongClose fuel t).map (fun p => (c :: p.1, p.2))

/-- Matcher for `/<strong>(.*?)<\/strong>/gi` (Chatbot.tsx line 152).  The
payload is `<strong>${content}</strong>` stored in `existingBold`
(line 156). -/
def strongMatch (s : Str) : Option (Str × Str) :=
  if isPrefixOfCI (str "<strong>") s then
    (strongClose s.length (s.drop 8)).map
      (fun p => (str "<strong>" ++ p.1 ++ str "</strong>", p.2))
  else none

/-- JavaScript `String.prototype.trim`. -/
def jsTrim (s : Str) : Str :=
  ((s.dropWhile isWs).reverse.dropWhile isWs).reverse

/-- Trailing-punctuation class `[)\].,!?;:]` used by the URL-cleaning
regexes (Chatbot.tsx lines 192 and 316). -/
def isTrailPunct (c : Char) : Bool :=
  c = ')' || c = ']' || c = '.' || c = ',' || c = '!' || c = '?' || c = ';' || c = ':'

/-- `url.replace(/[)\].,!?;:]+$/, '')` (Chatbot.tsx line 192): strip the
maximal run of trailing punctuation. -/
def stripTrailPunct (s : Str) : Str :=
  (s.reverse.dropWhile isTrailPunct).reverse

/-- Does the URL candidate start with `http://` or `https://`
(Chatbot.tsx line 195)? -/
def startsWithHttp (s : Str) : Bool :=
  (str "http://").isPrefixOf s || (str "https://").isPrefixOf s

/-- Step 2 markdown-link scan (Chatbot.tsx lines 171-207): locate `[`, the
next `]`, require `(` immediately after, then the next `)`; the text between
the parentheses is trimmed and stripped of trailing punctuation and accepted
when it starts with `http(s)://`.  On a rejected candidate scanning resumes
just after the `[`.  `.inr` carries the cleaned URL of a match. -/
def scanMarkdown : Nat → Str → List (Str ⊕ Str)
  | 0, s => [.inl s]
  | fuel + 1, s =>
    match splitFirst (str "[") s with
    | none => [.inl s]
    | some (pre, afterLB) =>
      match splitFirst (str "]") afterLB with
      | none => [.inl s]
      | some (_, afterRB) =>
        match afterRB with
        | '(' :: afterLP =>
          match splitFirst (str ")") afterLP with
          | none => [.inl s]
          | some (urlRaw, afterRP) =>
            let url := stripTrailPunct (jsTrim urlRaw)
            if startsWithHttp url then
              .inl pre :: .inr url :: scanMarkdown fuel afterRP
            else
              .inl (pre ++ str "[") :: scanMarkdown fuel afterLB
        | _ => .inl (pre ++ str "[") :: scanMarkdown fuel afterLB

/-- The markdown replacement HTML (Chatbot.tsx lines 215-219): the cleaned
URL is used for both the `href` and the link text. -/
def mdHtml (url : Str) : Str :=
  let cleanUrl := jsTrim url
  str "<a href=\"" ++ escapeHtml cleanUrl ++
    str "\" target=\"_blank\" rel=\"noopener noreferrer\" style=\"color: #007bff; text-decoration: underline;\">" ++
    escapeHtml cleanUrl ++ str "</a>"

/-- The `markdownLinkPlaceholders` array (Chatbot.tsx lines 210-221) in push
order: entry `k` pairs placeholder `k` with the HTML of the `(m-1-k)`-th
match (the loop walks matches from last to first). -/
def markdownAList (segs : List (Str ⊕ Str)) : List (Str × Str) :=
  ((segAnchors segs).reverse).enum.map (fun p => (phMarkdown p.1, mdHtml p.2))

-- sanity checks against hand-traced JS behaviour
example : gsub brMatch 100 (str "a<BR/>b<br >c") = str "a<br>b<br>c" := by decide
example : gsub boldMatch 100 (str "x**ab**y") = str "x<strong>ab</strong>y" := by
  decide
example : gsub boldMatch 100 (str "****") = str "****" := by decide
example : gsub boldMatch 100 (str "***a**") = str "<strong>*a</strong>" := by
  decide
example : scanMarkdown 100 (str "See [here](https://x.test/a).") =
    [.inl (str "See "), .inr (str "https://x.test/a"), .inl (str ".")] := by
  decide
example : scanMarkdown 100 (str "[a](nope) [b](http://y.z/)") =
    [.inl (str "["), .inl (str "a](nope) "), .inr (str "http://y.z/"),
      .inl (str "")] := by decide

/-- Recognise one placeholder pattern `tag ++ digits ++ "__"` (at least one
digit), as matched by the components of the placeholder regex on
Chatbot.tsx line 226. -/
def phMatchTag (tag : Str) (s : Str) : Option (Str × Str) :=
  if tag.isPrefixOf s then
    let rest0 := s.drop tag.length
    let ds := rest0.takeWhile Char.isDigit
    let rest1 := rest0.dropWhile Char.isDigit
    if ds ≠ [] ∧ (str "__").isPrefixOf rest1 then
      some (tag ++ ds ++ str "__", rest1.drop 2)
    else none
  else none

/-- Matcher for the placeholder regex (Chatbot.tsx line 226):
`/__(?:EXISTING|MARKDOWN)_LINK_\d+__|__BR_TAG_\d+__|__BOLD_TAG_\d+__/g`. -/
def phSplitMatch (s : Str) : Option (Str × Str) :=
  (phMatchTag (str "__EXISTING_LINK_") s).orElse fun _ =>
  (phMatchTag (str "__MARKDOWN_LINK_") s).orElse fun _ =>
  (phMatchTag (str "__BR_TAG_") s).orElse fun _ =>
  phMatchTag (str "__BOLD_TAG_") s

/-- Step 3 (Chatbot.tsx lines 224-253): split on placeholders, escape the
text parts only, and rejoin.  Escaping character by character outside
placeholder matches is equivalent to escaping each text part. -/
def escapeOutsidePh : Nat → Str → Str
  | 0, s => s
  | _ + 1, [] => []
  | fuel + 1, c :: t =>
    match phSplitMatch (c :: t) with
    | some (ph, rest) => ph ++ escapeOutsidePh fuel rest
    | none => escChar c ++ escapeOutsidePh fuel t

/-- Characters permitted in the body of a bare URL by
`/https?:\/\/[^\s<>"']+/` (Chatbot.tsx line 260). -/
def urlBodyChar (c : Char) : Bool :=
  !(isWs c || c = '<' || c = '>' || c = '"' || c = '\'')

/-- Maximal bare-URL match at the current position for
`/https?:\/\/[^\s<>"']+/g` (Chatbot.tsx line 260). -/
def urlTake (s : Str) : Option (Str × Str) :=
  if (str "https://").isPrefixOf s then
    let rest := s.drop 8
    let run := rest.takeWhile urlBodyChar
    if run = [] then none
    else some (str "https://" ++ run, rest.dropWhile urlBodyChar)
  else if (str "http://").isPrefixOf s then
    let rest := s.drop 7
    let run := rest.takeWhile urlBodyChar
    if run = [] then none
    else some (str "http://" ++ run, rest.dropWhile urlBodyChar)
  else none

/-- Start index of the last occurrence of `pat` in `s`, or `none`;
models JavaScript `s.lastIndexOf(pat)` (which returns -1 for `none`). -/
def lastIndexOfPos (pat s : Str) : Option Nat :=
  match s with
  | [] => if pat.isEmpty then some 0 else none
  | _ :: t =>
    match lastIndexOfPos pat t with
    | some i => some (i + 1)
    | none => if pat.isPrefixOf s then some 0 else none

/-- `s.lastIndexOf(pat)` with JavaScript's -1-for-absent convention. -/
def jsLastIndexOf (pat s : Str) : Int :=
  match lastIndexOfPos pat s with
  | none => -1
  | some i => (i : Int)

/-- The skip conditions of the bare-URL pass (Chatbot.tsx lines 266-305):
a matched URL is left alone when it looks like part of a placeholder, when
the text before it has an unclosed (possibly entity-escaped) `<a` tag, or
when it lies after an unclosed protected placeholder. -/
def urlSkip (left u : Str) : Bool :=
  containsSub u (str "__LINK_") || containsSub u (str "__MARKDOWN_") ||
  containsSub u (str "__EXISTING_") || containsSub u (str "__VALID_TAG_") ||
  (let lastOpen := max (jsLastIndexOf (str "<a") left)
      (jsLastIndexOf (str "&lt;a") left)
   let lastClose := max (jsLastIndexOf (str "</a>") left)
      (jsLastIndexOf (str "&lt;/a&gt;") left)
   if lastOpen > lastClose then true
   else if containsSub left (str "__EXISTING_LINK_") ||
       containsSub left (str "__VALID_TAG_") then
     let lastPh := max (jsLastIndexOf (str "__EXISTING_LINK_") left)
        (jsLastIndexOf (str "__VALID_TAG_") left)
     decide (lastPh > lastClose)
   else false)

/-- Literal global replace `s.replaceAll(pat, repl)` (a `gsub` with a plain
string pattern); used for the entity (un)escaping chains. -/
def replaceAllLit (pat repl : Str) (s : Str) : Str :=
  gsub (fun t => if pat.isPrefixOf t then some (repl, t.drop pat.length) else none)
    (s.length + 1) s

/-- The bare-URL replacement (Chatbot.tsx lines 308-330): strip trailing
punctuation unless the URL ends in `/`, unescape entities for the `href`,
re-escape quotes, and keep the stripped punctuation after the tag. -/
def urlReplacement (u : Str) : Str :=
  let stripped :=
    if u.getLast? = some '/' then (u, ([] : Str))
    else
      let revU := u.reverse
      let tp := revU.takeWhile isTrailPunct
      if tp = [] then (u, ([] : Str))
      else ((revU.dropWhile isTrailPunct).reverse, tp.reverse)
  let cleanUrl := stripped.1
  let trailing := stripped.2
  let unescapedUrl :=
    replaceAllLit (str "&#039;") (str "'")
      (replaceAllLit (str "&quot;") (str "\"")
        (replaceAllLit (str "&gt;") (str ">")
          (replaceAllLit (str "&lt;") (str "<")
            (replaceAllLit (str "&amp;") (str "&") cleanUrl))))
  let escapedHref :=
    replaceAllLit (str "'") (str "&#039;")
      (replaceAllLit (str "\"") (str "&quot;") unescapedUrl)
  str "<a href=\"" ++ escapedHref ++
    str "\" target=\"_blank\" rel=\"noopener noreferrer\" style=\"color: #007bff; text-decoration: underline;\">" ++
    cleanUrl ++ str "</a>" ++ trailing

/-- Step 4 (Chatbot.tsx lines 255-337): collect bare-URL matches over the
unmodified string (the `left` argument is the original prefix), then replace
the accepted ones.  Collect-then-replace-from-the-end is equivalent to this
single left-to-right pass because matches are disjoint and in order. -/
def urlPass : Nat → Str → Str → Str
  | 0, _, s => s
  | _ + 1, _, [] => []
  | fuel + 1, left, c :: t =>
    match urlTake (c :: t) with
    | some (u, rest) =>
      if urlSkip left u then u ++ urlPass fuel (left ++ u) rest
      else urlReplacement u ++ urlPass fuel (left ++ u) rest
    | none => c :: urlPass fuel (left ++ [c]) t

-- sanity checks
example : escapeOutsidePh 100 (str "a&b__BR_TAG_0__<c>") =
    str "a&amp;b__BR_TAG_0__&lt;c&gt;" := by decide
example : urlTake (str "https://x.y/a-b.html c") =
    some (str "https://x.y/a-b.html", str " c") := by decide
example : urlPass 200 [] (str "go https://x.test/p.") =
    str "go " ++ urlReplacement (str "https://x.test/p.") := by decide
example : urlReplacement (str "https://x.test/p.") =
    str "<a href=\"https://x.test/p\" target=\"_blank\" rel=\"noopener noreferrer\" style=\"color: #007bff; text-decoration: underline;\">https://x.test/p</a>." := by
  decide
example : urlPass 200 [] (str "<a href=\"u\">see https://x.test/p</a>") =
    str "<a href=\"u\">see https://x.test/p</a>" := by decide

/-- `forEach`-style restoration (Chatbot.tsx lines 340-347, 360-362,
368-370, 444-446): replace the first occurrence of each placeholder by its
stored HTML, in array order. -/
def restoreAll : List (Str × Str) → Str → Str
  | [], h => h
  | (ph, html) :: rest, h => restoreAll rest (replaceFirst ph html h)

/-- Matcher for the defensive placeholder removals
(`/__EXISTING_LINK_\d+__/g`, `/__BR_TAG_\d+__/g`, `/__BOLD_TAG_\d+__/g`;
Chatbot.tsx lines 351, 365, 373), parameterised by the tag. -/
def phRemoveMatch (tag : Str) (s : Str) : Option (Str × Str) :=
  (phMatchTag tag s).map (fun p => ([], p.2))

/-- Matcher for `/([^<])\](\(https?:\/\/[^\s<>"']+\))/g → '$1'`
(Chatbot.tsx line 356).  The greedy URL-character class includes `)`, so the
final `)` of the pattern is the last `)` of the run (at index at least 1). -/
def mdJunk1Match (s : Str) : Option (Str × Str) :=
  match s with
  | c :: ']' :: '(' :: rest =>
    if c = '<' then none
    else
      let scheme :=
        if (str "https://").isPrefixOf rest then some 8
        else if (str "http://").isPrefixOf rest then some 7
        else none
      match scheme with
      | none => none
      | some n =>
        let run := (rest.drop n).takeWhile urlBodyChar
        let revRun := run.reverse
        let afterParen := revRun.takeWhile (fun c => c ≠ ')')
        if afterParen.length = revRun.length then none
        else
          let j := run.length - 1 - afterParen.length
          if 1 ≤ j then some ([c], rest.drop (n + j + 1))
          else none
  | _ => none

/-- Matcher for `/([^<])\[([^\]]*)\]\(/g → '$1'` (Chatbot.tsx line 357):
drops an unconverted `[text](` opener, keeping the preceding character. -/
def mdJunk2Match (s : Str) : Option (Str × Str) :=
  match s with
  | c :: '[' :: rest =>
    if c = '<' then none
    else
      let txt := rest.takeWhile (fun c => c ≠ ']')
      match rest.drop txt.length with
      | ']' :: '(' :: rest2 => some ([c], rest2)
      | _ => none
  | _ => none

/-- Matcher for `/\s*-\s*(<br>|$)/g → '$1'` (Chatbot.tsx line 377):
a dash surrounded by whitespace and followed by `<br>` or the end of the
string; the `<br>` (when present) is re-emitted by the `$1` group. -/
def dashEndMatch (s : Str) : Option (Str × Str) :=
  let r1 := s.dropWhile isWs
  match r1 with
  | '-' :: r2 =>
    let r3 := r2.dropWhile isWs
    if (str "<br>").isPrefixOf r3 then some (str "<br>", r3.drop 4)
    else if r3 = [] then some ([], [])
    else none
  | _ => none

/-- Matcher for the `<br>` alternative of `/(<br>|^)\s*-\s*/g → '$1'`
(Chatbot.tsx line 378). -/
def brDashMatch (s : Str) : Option (Str × Str) :=
  if (str "<br>").isPrefixOf s then
    match (s.drop 4).dropWhile isWs with
    | '-' :: r2 => some (str "<br>", r2.dropWhile isWs)
    | _ => none
  else none

/-- Full pass for `/(<br>|^)\s*-\s*/g → '$1'` (Chatbot.tsx line 378): the
`^` alternative can only fire at position 0 (no `m` flag); the rest of the
string is scanned for the `<br>` alternative. -/
def dashLinePass (fuel : Nat) (s : Str) : Str :=
  match s.dropWhile isWs with
  | '-' :: r2 => gsub brDashMatch fuel (r2.dropWhile isWs)
  | _ => gsub brDashMatch fuel s

/-- Count the maximal run of `(<br>\s*)` groups at the current position,
for `/(<br>\s*){3,}/g` (Chatbot.tsx line 380). -/
def brRun : Nat → Str → Nat × Str
  | 0, s => (0, s)
  | fuel + 1, s =>
    if (str "<br>").isPrefixOf s then
      let p := brRun fuel ((s.drop 4).dropWhile isWs)
      (p.1 + 1, p.2)
    else (0, s)

/-- Matcher for `/(<br>\s*){3,}/g → '<br><br>'` (Chatbot.tsx line 380). -/
def brRunMatch (s : Str) : Option (Str × Str) :=
  let p := brRun s.length s
  if 3 ≤ p.1 then some (str "<br><br>", p.2) else none

/-- Is `c` in the class `[A-Z_]`? -/
def upperOrUnd (c : Char) : Bool := ('A' ≤ c && c ≤ 'Z') || c = '_'

/-- Matcher for `/__[A-Z_]+_\d+__/g → ''` (Chatbot.tsx line 382).  Digits
cannot occur inside the `[A-Z_]+` run, so the literal `_` before `\d+` is
necessarily the last character of the maximal `[A-Z_]` run after `__`. -/
def phJunkMatch (s : Str) : Option (Str × Str) :=
  if (str "__").isPrefixOf s then
    let rest0 := s.drop 2
    let run := rest0.takeWhile upperOrUnd
    if 2 ≤ run.length ∧ run.getLast? = some '_' then
      let rest1 := rest0.drop run.length
      let ds := rest1.takeWhile Char.isDigit
      if ds ≠ [] ∧ (str "__").isPrefixOf (rest1.drop ds.length) then
        some ([], rest1.drop (ds.length + 2))
      else none
    else none
  else none

/-- Matcher for `/\s*LIT\s*/gi → repl` with a case-insensitive literal
(Chatbot.tsx lines 432-433): whitespace, the literal, whitespace. -/
def wsLitWsMatch (lit : Str) (s : Str) : Option (Str × Str) :=
  let r1 := s.dropWhile isWs
  if isPrefixOfCI lit r1 then
    some ([], (r1.drop lit.length).dropWhile isWs)
  else none

/-- Matcher for `/\s*style="[^"]*"\s*/gi → ''` (Chatbot.tsx line 434). -/
def styleMatch (s : Str) : Option (Str × Str) :=
  let r1 := s.dropWhile isWs
  if isPrefixOfCI (str "style=\"") r1 then
    let body := (r1.drop 7).takeWhile (fun c => c ≠ '"')
    match (r1.drop 7).drop body.length with
    | '"' :: r2 => some ([], r2.dropWhile isWs)
    | _ => none
  else none

/-- Matcher for `/\s*">\s*View Product/gi → ''` (Chatbot.tsx line 435). -/
def viewProductMatch (s : Str) : Option (Str × Str) :=
  let r1 := s.dropWhile isWs
  match r1 with
  | '"' :: '>' :: r2 =>
    let r3 := r2.dropWhile isWs
    if isPrefixOfCI (str "View Product") r3 then some ([], r3.drop 12) else none
  | _ => none

/-- Matcher for `/\s*">\s*View\s*/gi → ''` (Chatbot.tsx line 436). -/
def viewMatch (s : Str) : Option (Str × Str) :=
  let r1 := s.dropWhile isWs
  match r1 with
  | '"' :: '>' :: r2 =>
    let r3 := r2.dropWhile isWs
    if isPrefixOfCI (str "View") r3 then
      some ([], (r3.drop 4).dropWhile isWs)
    else none
  | _ => none

/-- Does `left` end with `__VALID_TAG_<digits>__` (the variable-length
lookbehind of Chatbot.tsx line 438)? -/
def endsValidTag (left : Str) : Bool :=
  let rev := left.reverse
  if (str "__").isPrefixOf rev then
    let ds := (rev.drop 2).takeWhile Char.isDigit
    ds ≠ [] && (str "__VALID_TAG_").reverse.isPrefixOf ((rev.drop 2).drop ds.length)
  else false

/-- Matcher for
`/(?<!__VALID_TAG_\d+__)\s*">\s*(?!__VALID_TAG_)/g → ' '`
(Chatbot.tsx line 438).  The trailing `\s*` backtracks by one character when
the negative lookahead would see `__VALID_TAG_`. -/
def quoteGtMatch (left s : Str) : Option (Str × Str) :=
  if endsValidTag left then none
  else
    let ws1 := s.takeWhile isWs
    match s.drop ws1.length with
    | '"' :: '>' :: r2 =>
      let ws2 := r2.takeWhile isWs
      let r3 := r2.drop ws2.length
      if (str "__VALID_TAG_").isPrefixOf r3 then
        if ws2 = [] then none
        else some ([' '], ws2.getLast?.toList ++ r3)
      else some ([' '], r3)
    | _ => none

/-- Left-context global rewrite, for the one lookbehind pattern: `left` is
the prefix of the original string before the current position (a single
`replace` call scans the original string). -/
def gsubL (matchAt : Str → Str → Option (Str × Str)) :
    Nat → Str → Str → Str
  | 0, _, s => s
  | _ + 1, _, [] => []
  | fuel + 1, left, c :: t =>
    match matchAt left (c :: t) with
    | some (repl, rest) =>
      repl ++ gsubL matchAt fuel (left ++ ((c :: t).take ((c :: t).length - rest.length))) rest
    | none => c :: gsubL matchAt fuel (left ++ [c]) t

/-- Matcher for `/<a\s*>/gi → ''` (Chatbot.tsx line 439). -/
def emptyAMatch (s : Str) : Option (Str × Str) :=
  if isPrefixOfCI (str "<a") s then
    match (s.drop 2).dropWhile isWs with
    | '>' :: r => some ([], r)
    | _ => none
  else none

/-- Matcher for `/<\/a>\s*\(/g → ' ('` (Chatbot.tsx line 440). -/
def closeAParenMatch (s : Str) : Option (Str × Str) :=
  if (str "</a>").isPrefixOf s then
    match (s.drop 4).dropWhile isWs with
    | '(' :: r => some (str " (", r)
    | _ => none
  else none

/-- Matcher for `/\)\s*<\/a>/g → ')'` (Chatbot.tsx line 441). -/
def parenCloseAMatch (s : Str) : Option (Str × Str) :=
  match s with
  | ')' :: r =>
    let r1 := r.dropWhile isWs
    if (str "</a>").isPrefixOf r1 then some ([')'], r1.drop 4) else none
  | _ => none

/-- The Linkifier `convertLinksToHTML` (Chatbot.tsx lines 63-452), assembled
from the step embeddings above in source order. -/
def convertLinksToHTML (text : Str) : Str :=
  if text = [] then []
  else
    let segsA := scanAnchors (text.length + 1) text
    let existingLinks := anchorAList phExisting segsA
    let t1 := renderAnchorSegs phExisting (segAnchors segsA).length segsA 0
    let pBr := gsubCap brMatch phBr (t1.length + 1) 0 t1
    let existingBreaks := pBr.2.enum.map (fun p => (phBr p.1, p.2))
    let t2 := pBr.1
    let t3 := gsub boldMatch (t2.length + 1) t2
    let pSt := gsubCap strongMatch phBold (t3.length + 1) 0 t3
    let existingBold := pSt.2.enum.map (fun p => (phBold p.1, p.2))
    let t4 := pSt.1
    let segsM := scanMarkdown (t4.length + 1) t4
    let mdPh := markdownAList segsM
    let t5 := renderAnchorSegs phMarkdown (segAnchors segsM).length segsM 0
    let t6 := escapeOutsidePh (t5.length + 1) t5
    let t7 := urlPass (t6.length + 1) [] t6
    let t8 := restoreAll mdPh t7
    let t9 := restoreAll existingLinks t8
    let t10 := gsub (phRemoveMatch (str "__EXISTING_LINK_")) (t9.length + 1) t9
    let t11 := gsub mdJunk1Match (t10.length + 1) t10
    let t12 := gsub mdJunk2Match (t11.length + 1) t11
    let t13 := restoreAll existingBreaks t12
    let t14 := gsub (phRemoveMatch (str "__BR_TAG_")) (t13.length + 1) t13
    let t15 := restoreAll existingBold t14
    let t16 := gsub (phRemoveMatch (str "__BOLD_TAG_")) (t15.length + 1) t15
    let t17 := gsub dashEndMatch (t16.length + 1) t16
    let t18 := dashLinePass (t17.length + 1) t17
    let t19 := gsub brRunMatch (t18.length + 1) t18
    let t20 := gsub phJunkMatch (t19.length + 1) t19
    let segsV := scanAnchors (t20.length + 1) t20
    let validTags := anchorAList phValid segsV
    let t21 := renderAnchorSegs phValid (segAnchors segsV).length segsV 0
    let t22 := gsub (wsLitWsMatch (str "target=\"_blank\"")) (t21.length + 1) t21
    let t23 := gsub (wsLitWsMatch (str "rel=\"noopener noreferrer\"")) (t22.length + 1) t22
    let t24 := gsub styleMatch (t23.length + 1) t23
    let t25 := gsub viewProductMatch (t24.length + 1) t24
    let t26 := gsub viewMatch (t25.length + 1) t25
    let t27 := gsubL quoteGtMatch (t26.length + 1) [] t26
    let t28 := gsub emptyAMatch (t27.length + 1) t27
    let t29 := gsub closeAParenMatch (t28.length + 1) t28
    let t30 := gsub parenCloseAMatch (t29.length + 1) t29
    let t31 := restoreAll validTags t30
    replaceAllLit (str "\n") (str "<br>") t31

/-! ## Generic scanner lemmas -/

theorem splitFirst_none_of_head {c₀ : Char} {pr s : Str} (h : c₀ ∉ s) :
    splitFirst (c₀ :: pr) s = none := by
  induction s with
  | nil => rfl
  | cons c t ih =>
    have hc : c ≠ c₀ := fun e => h (e ▸ List.mem_cons_self c t)
    have hnp : ¬ ((c₀ :: pr).isPrefixOf (c :: t) = true) := by
      simp only [List.isPrefixOf_iff_prefix]
      intro hp
      rcases hp with ⟨r, hr⟩
      exact hc (by injection hr with h1 _ ; exact h1.symm)
    rw [splitFirst, if_neg hnp, ih (fun hm => h (List.mem_cons_of_mem _ hm)),
      Option.map_none']

theorem splitFirst_append_left {c₀ : Char} {pr x z : Str} (h : c₀ ∉ x) :
    splitFirst (c₀ :: pr) (x ++ z) =
      (splitFirst (c₀ :: pr) z).map (fun p => (x ++ p.1, p.2)) := by
  induction x with
  | nil => cases hz : splitFirst (c₀ :: pr) z <;> simp [hz]
  | cons c t ih =>
    have hc : c ≠ c₀ := fun e => h (e ▸ List.mem_cons_self c t)
    have hnp : ¬ ((c₀ :: pr).isPrefixOf (c :: (t ++ z)) = true) := by
      simp only [List.isPrefixOf_iff_prefix]
      intro hp
      rcases hp with ⟨r, hr⟩
      exact hc (by injection hr with h1 _ ; exact h1.symm)
    have ih' := ih (fun hm => h (List.mem_cons_of_mem _ hm))
    rw [List.cons_append, splitFirst, if_neg hnp, ih']
    cases hz : splitFirst (c₀ :: pr) z <;> simp [hz]

theorem splitFirst_self_append {c₀ : Char} {pr y : Str} :
    splitFirst (c₀ :: pr) ((c₀ :: pr) ++ y) = some ([], y) := by
  have hp : ((c₀ :: pr).isPrefixOf (c₀ :: (pr ++ y))) = true := by
    simp only [← List.cons_append, List.isPrefixOf_iff_prefix]
    exact List.prefix_append _ _
  rw [List.cons_append, splitFirst, if_pos hp]
  have hd : List.drop (c₀ :: pr).length (c₀ :: (pr ++ y)) = y := by
    rw [← List.cons_append, List.drop_left]
  rw [hd]

theorem splitFirst_mid {c₀ : Char} {pr x y : Str} (h : c₀ ∉ x) :
    splitFirst (c₀ :: pr) (x ++ ((c₀ :: pr) ++ y)) = some (x, y) := by
  rw [splitFirst_append_left h, splitFirst_self_append]
  simp

theorem replaceFirst_mid {c₀ : Char} {pr repl x y : Str} (h : c₀ ∉ x) :
    replaceFirst (c₀ :: pr) repl (x ++ ((c₀ :: pr) ++ y)) = x ++ repl ++ y := by
  rw [replaceFirst, splitFirst_mid h]

theorem containsSub_mid (x p y : Str) : containsSub (x ++ (p ++ y)) p = true := by
  induction x with
  | nil =>
    rw [List.nil_append]
    cases hpy : p ++ y with
    | nil =>
      rcases List.append_eq_nil.mp hpy with ⟨h1, _⟩
      subst h1
      rfl
    | cons c t =>
      rw [containsSub, ← hpy]
      simp [List.isPrefixOf_iff_prefix, List.prefix_append]
  | cons c t ih =>
    rw [List.cons_append, containsSub]
    simp [ih]

theorem suffix_append_cases {b x y : Str} (h : b <:+ x ++ y) :
    b <:+ y ∨ ∃ x', x' <:+ x ∧ b = x' ++ y := by
  rcases h with ⟨t, ht⟩
  rcases List.append_eq_append_iff.mp ht with ⟨a', ha1, ha2⟩ | ⟨c', hc1, hc2⟩
  · exact Or.inr ⟨a', ⟨t, ha1.symm⟩, ha2⟩
  · exact Or.inl ⟨c', hc2.symm⟩

/-- Splits of a concatenation at a distinguished character land in the left
or the right part. -/
theorem split_append {x y a b : Str} {c : Char} (h : x ++ y = a ++ c :: b) :
    (∃ x₁ x₂, x = x₁ ++ c :: x₂ ∧ b = x₂ ++ y) ∨
    (∃ y₁ y₂, y = y₁ ++ c :: y₂ ∧ b = y₂) := by
  rcases List.append_eq_append_iff.mp h with ⟨e, _, he2⟩ | ⟨e, he1, he2⟩
  · exact Or.inr ⟨e, b, he2, rfl⟩
  · cases e with
    | nil =>
      right
      refine ⟨[], b, ?_, rfl⟩
      simpa using he2.symm
    | cons d t =>
      left
      injection he2 with h1 h2
      exact ⟨a, t, by rw [he1, h1], h2⟩

/-- No split at `c` exists when `c` does not occur. -/
theorem no_split_of_notMem {s a b : Str} {c : Char} (h : c ∉ s) :
    s ≠ a ++ c :: b := by
  intro he
  exact h (he ▸ List.mem_append.mpr (Or.inr (List.mem_cons_self c b)))

/-- The tails following each occurrence of `c` in `s`. -/
def tailsAfter (c : Char) : Str → List Str
  | [] => []
  | x :: t => (if x = c then [t] else []) ++ tailsAfter c t

theorem mem_tailsAfter_of_split {c : Char} :
    ∀ {s a b : Str}, s = a ++ c :: b → b ∈ tailsAfter c s := by
  intro s a
  induction a generalizing s with
  | nil =>
    intro b h
    subst h
    simp [tailsAfter]
  | cons d t ih =>
    intro b h
    subst h
    simp only [List.cons_append, tailsAfter, List.mem_append]
    exact Or.inr (ih rfl)

theorem gsub_id {m : Str → Option (Str × Str)} {s : Str}
    (h : ∀ b, b <:+ s → m b = none) : ∀ fuel, gsub m fuel s = s := by
  intro fuel
  induction fuel generalizing s with
  | zero => rfl
  | succ n ih =>
    cases s with
    | nil => rfl
    | cons c t =>
      rw [gsub, h (c :: t) (List.suffix_refl _)]
      rw [ih (fun b hb => h b (hb.trans (List.suffix_cons c t)))]

theorem gsubCap_id {m : Str → Option (Str × Str)} {ph : Nat → Str} {s : Str}
    (h : ∀ b, b <:+ s → m b = none) : ∀ fuel n, gsubCap m ph fuel n s = (s, []) := by
  intro fuel
  induction fuel generalizing s with
  | zero => intro n; rfl
  | succ k ih =>
    intro n
    cases s with
    | nil => rfl
    | cons c t =>
      rw [gsubCap, h (c :: t) (List.suffix_refl _)]
      rw [ih (fun b hb => h b (hb.trans (List.suffix_cons c t)))]

theorem gsubL_id {m : Str → Str → Option (Str × Str)} {s : Str}
    (h : ∀ left b, b <:+ s → m left b = none) :
    ∀ fuel left, gsubL m fuel left s = s := by
  intro fuel
  induction fuel generalizing s with
  | zero => intro left; rfl
  | succ n ih =>
    intro left
    cases s with
    | nil => rfl
    | cons c t =>
      rw [gsubL, h left (c :: t) (List.suffix_refl _)]
      rw [ih (fun l b hb => h l b (hb.trans (List.suffix_cons c t)))]

theorem urlPass_id {s : Str} (h : ∀ b, b <:+ s → urlTake b = none) :
    ∀ fuel left, urlPass fuel left s = s := by
  intro fuel
  induction fuel generalizing s with
  | zero => intro left; rfl
  | succ n ih =>
    intro left
    cases s with
    | nil => rfl
    | cons c t =>
      rw [urlPass, h (c :: t) (List.suffix_refl _)]
      rw [ih (fun b hb => h b (hb.trans (List.suffix_cons c t)))]

/-! ## Character classes for the universal Linkifier theorems -/

/-- Lowercase ASCII letter. -/
def LowerCh (c : Char) : Prop := 97 ≤ c.toNat ∧ c.toNat ≤ 122

/-- ASCII digit. -/
def DigitCh (c : Char) : Prop := 48 ≤ c.toNat ∧ c.toNat ≤ 57

/-- Plain conversational characters: lowercase letters, digits, spaces. -/
def PlainCh (c : Char) : Prop := LowerCh c ∨ DigitCh c ∨ c = ' '

/-- Characters of a URL path: lowercase letters, digits, `/`, `-`, `.`. -/
def UrlCh (c : Char) : Prop :=
  LowerCh c ∨ DigitCh c ∨ c = '/' ∨ c = '-' ∨ c = '.'

/-- Characters safe inside a preserved anchor (URL characters or spaces). -/
def SafeCh (c : Char) : Prop := UrlCh c ∨ c = ' '

instance : DecidablePred LowerCh := fun _ => by unfold LowerCh; infer_instance
instance : DecidablePred DigitCh := fun _ => by unfold DigitCh; infer_instance
instance : DecidablePred PlainCh := fun _ => by unfold PlainCh; infer_instance
instance : DecidablePred UrlCh := fun _ => by unfold UrlCh; infer_instance
instance : DecidablePred SafeCh := fun _ => by unfold SafeCh; infer_instance

theorem PlainCh.toSafe {c : Char} (h : PlainCh c) : SafeCh c := by
  rcases h with h | h | h
  · exact Or.inl (Or.inl h)
  · exact Or.inl (Or.inr (Or.inl h))
  · exact Or.inr h

theorem UrlCh.safeCh {c : Char} (h : UrlCh c) : SafeCh c := Or.inl h

theorem SafeCh.ne {c d : Char} (h : SafeCh c) (hd : ¬ SafeCh d) : c ≠ d :=
  fun e => hd (e ▸ h)

theorem notMem_of_safe {l : Str} {d : Char} (hl : ∀ c ∈ l, SafeCh c)
    (hd : ¬ SafeCh d) : d ∉ l :=
  fun hm => hd (hl d hm)

theorem safe_all_append {x y : Str} (hx : ∀ c ∈ x, SafeCh c)
    (hy : ∀ c ∈ y, SafeCh c) : ∀ c ∈ x ++ y, SafeCh c := by
  intro c hc
  rcases List.mem_append.mp hc with h | h
  · exact hx c h
  · exact hy c h

theorem SafeCh.not_upper {c : Char} (h : SafeCh c) :
    ¬ (65 ≤ c.toNat ∧ c.toNat ≤ 90) := by
  rintro ⟨h1, h2⟩
  rcases h with (hc | hc | hc | hc | hc) | hc
  · rcases hc with ⟨hl, _⟩
    omega
  · rcases hc with ⟨_, hr⟩
    omega
  all_goals subst hc; revert h1 h2; decide

theorem lcChar_eq_self_of_safe {c : Char} (h : SafeCh c) : lcChar c = c := by
  rw [lcChar, if_neg h.not_upper]

/-- No character of `s` lowercases to `d`. -/
def LcFree (d : Char) (s : Str) : Prop := ∀ c ∈ s, lcChar c ≠ d

theorem lcFree_of_safe {s : Str} {d : Char} (hs : ∀ c ∈ s, SafeCh c)
    (hd : ¬ SafeCh d) : LcFree d s := by
  intro c hc
  rw [lcChar_eq_self_of_safe (hs c hc)]
  exact (hs c hc).ne hd

theorem lcFree_append {x y : Str} {d : Char} (hx : LcFree d x) (hy : LcFree d y) :
    LcFree d (x ++ y) := by
  intro c hc
  rcases List.mem_append.mp hc with h | h
  · exact hx c h
  · exact hy c h

/-! ## Matcher trigger lemmas: each scanner only fires in the presence of a
distinctive character. -/

theorem isPrefixOfCI_head {lit b : Str} {d : Char} (hl : lit.head? = some d)
    (h : isPrefixOfCI lit b = true) : ∃ c t, b = c :: t ∧ lcChar c = lcChar d := by
  cases lit with
  | nil => cases hl
  | cons d' lt =>
    injection hl with hd
    subst hd
    cases b with
    | nil => simp [isPrefixOfCI, lcStr] at h
    | cons c t =>
      refine ⟨c, t, rfl, ?_⟩
      simp only [isPrefixOfCI, lcStr, List.map_cons] at h
      rcases (List.isPrefixOf_iff_prefix.mp h) with ⟨r, hr⟩
      injection hr with h1 _
      exact h1.symm

theorem brMatch_none {c : Char} {t : Str} (h : lcChar c ≠ '<') :
    brMatch (c :: t) = none := by
  rw [brMatch, if_neg]
  intro hp
  rcases isPrefixOfCI_head (by rfl) hp with ⟨c', t', he, hlc⟩
  injection he with h1 _
  subst h1
  exact h (by simpa using hlc)

theorem strongMatch_none {c : Char} {t : Str} (h : lcChar c ≠ '<') :
    strongMatch (c :: t) = none := by
  rw [strongMatch, if_neg]
  intro hp
  rcases isPrefixOfCI_head (by rfl) hp with ⟨c', t', he, hlc⟩
  injection he with h1 _
  subst h1
  exact h (by simpa using hlc)

theorem boldMatch_none {c : Char} {t : Str} (h : c ≠ '*') :
    boldMatch (c :: t) = none := by
  rw [boldMatch, if_neg]
  intro hp
  rcases (List.isPrefixOf_iff_prefix.mp hp) with ⟨r, hr⟩
  injection hr with h1 _
  exact h h1.symm

theorem phMatchTag_none {c c₀ : Char} {tg t : Str} (h : c ≠ c₀) :
    phMatchTag (c₀ :: tg) (c :: t) = none := by
  rw [phMatchTag, if_neg]
  intro hp
  rcases (List.isPrefixOf_iff_prefix.mp hp) with ⟨r, hr⟩
  injection hr with h1 _
  exact h h1.symm

theorem urlTake_colon {b : Str} {p : Str × Str} (h : urlTake b = some p) :
    ':' ∈ b := by
  rw [urlTake] at h
  by_cases h8 : (str "https://").isPrefixOf b
  · rcases (List.isPrefixOf_iff_prefix.mp h8) with ⟨r, hr⟩
    rw [← hr]
    exact List.mem_append.mpr (Or.inl (by decide))
  · rw [if_neg h8] at h
    by_cases h7 : (str "http://").isPrefixOf b
    · rcases (List.isPrefixOf_iff_prefix.mp h7) with ⟨r, hr⟩
      rw [← hr]
      exact List.mem_append.mpr (Or.inl (by decide))
    · rw [if_neg h7] at h
      cases h

theorem mdJunk1_mem {b : Str} {p : Str × Str} (h : mdJunk1Match b = some p) :
    ']' ∈ b := by
  unfold mdJunk1Match at h
  split at h
  · exact List.mem_cons_of_mem _ (List.mem_cons_self _ _)
  · cases h

theorem mdJunk2_mem {b : Str} {p : Str × Str} (h : mdJunk2Match b = some p) :
    '[' ∈ b := by
  unfold mdJunk2Match at h
  split at h
  · exact List.mem_cons_of_mem _ (List.mem_cons_self _ _)
  · cases h

theorem brDash_pref {b : Str} {p : Str × Str} (h : brDashMatch b = some p) :
    (str "<br>").isPrefixOf b = true := by
  rw [brDashMatch] at h
  by_cases hp : (str "<br>").isPrefixOf b = true
  · exact hp
  · rw [if_neg hp] at h
    cases h

theorem brRun_pos_prefix {fuel : Nat} {s r : Str} {n : Nat}
    (h : brRun fuel s = (n + 1, r)) : (str "<br>").isPrefixOf s = true := by
  cases fuel with
  | zero => cases h
  | succ k =>
    rw [brRun] at h
    by_cases hp : (str "<br>").isPrefixOf s = true
    · exact hp
    · rw [if_neg hp] at h
      cases h

theorem brRunMatch_pref {b : Str} {p : Str × Str} (h : brRunMatch b = some p) :
    (str "<br>").isPrefixOf b = true := by
  rw [brRunMatch] at h
  rcases hr : brRun b.length b with ⟨n, rest⟩
  rw [hr] at h
  by_cases h3 : 3 ≤ n
  · cases n with
    | zero => omega
    | succ k => exact brRun_pos_prefix hr
  · rw [if_neg h3] at h
    cases h

theorem phJunk_mem {b : Str} {p : Str × Str} (h : phJunkMatch b = some p) :
    '_' ∈ b := by
  rw [phJunkMatch] at h
  by_cases hp : (str "__").isPrefixOf b = true
  · rcases (List.isPrefixOf_iff_prefix.mp hp) with ⟨r, hr⟩
    rw [← hr]
    exact List.mem_append.mpr (Or.inl (by decide))
  · rw [if_neg hp] at h
    cases h

theorem phMatchTag_mem {tg b : Str} {p : Str × Str} {c₀ : Char}
    (htg : tg.head? = some c₀) (h : phMatchTag tg b = some p) : c₀ ∈ b := by
  rw [phMatchTag] at h
  by_cases hp : tg.isPrefixOf b = true
  · rcases (List.isPrefixOf_iff_prefix.mp hp) with ⟨r, hr⟩
    rw [← hr]
    cases tg with
    | nil => cases htg
    | cons d t =>
      injection htg with hd
      subst hd
      exact List.mem_append.mpr (Or.inl (List.mem_cons_self _ _))
  · rw [if_neg hp] at h
    cases h

theorem phRemove_mem {tg b : Str} {p : Str × Str} {c₀ : Char}
    (htg : tg.head? = some c₀) (h : phRemoveMatch tg b = some p) : c₀ ∈ b := by
  rw [phRemoveMatch] at h
  cases hm : phMatchTag tg b with
  | none => rw [hm] at h; cases h
  | some q => exact phMatchTag_mem htg hm

theorem phSplit_mem {b : Str} {p : Str × Str} (h : phSplitMatch b = some p) :
    '_' ∈ b := by
  rw [phSplitMatch] at h
  cases h1 : phMatchTag (str "__EXISTING_LINK_") b with
  | some q => exact phMatchTag_mem (by decide) h1
  | none =>
    rw [h1] at h
    simp only [Option.orElse, Option.bind] at h
    cases h2 : phMatchTag (str "__MARKDOWN_LINK_") b with
    | some q => exact phMatchTag_mem (by decide) h2
    | none =>
      rw [h2] at h
      simp only [Option.orElse, Option.bind] at h
      cases h3 : phMatchTag (str "__BR_TAG_") b with
      | some q => exact phMatchTag_mem (by decide) h3
      | none =>
        rw [h3] at h
        simp only [Option.orElse, Option.bind] at h
        exact phMatchTag_mem (by decide) h

theorem closeAParen_mem {b : Str} {p : Str × Str}
    (h : closeAParenMatch b = some p) : '<' ∈ b := by
  rw [closeAParenMatch] at h
  by_cases hp : (str "</a>").isPrefixOf b = true
  · rcases (List.isPrefixOf_iff_prefix.mp hp) with ⟨r, hr⟩
    rw [← hr]
    exact List.mem_append.mpr (Or.inl (by decide))
  · rw [if_neg hp] at h
    cases h

theorem parenCloseA_mem {b : Str} {p : Str × Str}
    (h : parenCloseAMatch b = some p) : ')' ∈ b := by
  unfold parenCloseAMatch at h
  split at h
  · exact List.mem_cons_self _ _
  · cases h

theorem boldMatch_mem {b : Str} {p : Str × Str} (h : boldMatch b = some p) :
    '*' ∈ b := by
  rw [boldMatch] at h
  by_cases hp : (str "**").isPrefixOf b = true
  · rcases (List.isPrefixOf_iff_prefix.mp hp) with ⟨r, hr⟩
    rw [← hr]
    exact List.mem_append.mpr (Or.inl (by decide))
  · rw [if_neg hp] at h
    cases h

theorem exists_lc_of_prefixCI {lit b : Str} {d : Char} (hd : d ∈ lcStr lit)
    (h : isPrefixOfCI lit b = true) : ∃ c ∈ b, lcChar c = d := by
  rcases (List.isPrefixOf_iff_prefix.mp h) with ⟨r, hr⟩
  have : d ∈ lcStr b := by
    rw [← hr]
    exact List.mem_append.mpr (Or.inl hd)
  rcases List.mem_map.mp this with ⟨c, hc1, hc2⟩
  exact ⟨c, hc1, hc2⟩

theorem brMatch_lc {b : Str} {p : Str × Str} (h : brMatch b = some p) :
    ∃ c ∈ b, lcChar c = '<' := by
  rw [brMatch] at h
  by_cases hp : isPrefixOfCI (str "<br") b = true
  · exact exists_lc_of_prefixCI (by decide) hp
  · rw [if_neg hp] at h
    cases h

theorem strongMatch_lc {b : Str} {p : Str × Str} (h : strongMatch b = some p) :
    ∃ c ∈ b, lcChar c = '<' := by
  rw [strongMatch] at h
  by_cases hp : isPrefixOfCI (str "<strong>") b = true
  · exact exists_lc_of_prefixCI (by decide) hp
  · rw [if_neg hp] at h
    cases h

theorem emptyA_lc {b : Str} {p : Str × Str} (h : emptyAMatch b = some p) :
    ∃ c ∈ b, lcChar c = '<' := by
  rw [emptyAMatch] at h
  by_cases hp : isPrefixOfCI (str "<a") b = true
  · exact exists_lc_of_prefixCI (by decide) hp
  · rw [if_neg hp] at h
    cases h

theorem wsLitWs_lc {lit b : Str} {p : Str × Str} {d : Char} (hd : d ∈ lcStr lit)
    (h : wsLitWsMatch lit b = some p) : ∃ c ∈ b, lcChar c = d := by
  rw [wsLitWsMatch] at h
  by_cases hp : isPrefixOfCI lit (b.dropWhile isWs) = true
  · rcases exists_lc_of_prefixCI hd hp with ⟨c, hc1, hc2⟩
    exact ⟨c, (List.dropWhile_sublist _).subset hc1, hc2⟩
  · rw [if_neg hp] at h
    cases h

theorem styleMatch_mem {b : Str} {p : Str × Str} (h : styleMatch b = some p) :
    ∃ c ∈ b, lcChar c = '"' := by
  rw [styleMatch] at h
  by_cases hp : isPrefixOfCI (str "style=\"") (b.dropWhile isWs) = true
  · rcases exists_lc_of_prefixCI (d := '"') (by decide) hp with ⟨c, hc1, hc2⟩
    exact ⟨c, (List.dropWhile_sublist _).subset hc1, hc2⟩
  · rw [if_neg hp] at h
    cases h

theorem drop_takeWhile_len (p : Char → Bool) :
    ∀ l : Str, l.drop (l.takeWhile p).length = l.dropWhile p
  | [] => rfl
  | c :: t => by
    by_cases hc : p c
    · rw [List.takeWhile_cons_of_pos hc, List.dropWhile_cons_of_pos hc]
      simpa using drop_takeWhile_len p t
    · rw [List.takeWhile_cons_of_neg hc, List.dropWhile_cons_of_neg hc]
      rfl

theorem viewProduct_mem {b : Str} {p : Str × Str}
    (h : viewProductMatch b = some p) : '"' ∈ b := by
  simp only [viewProductMatch] at h
  split at h
  next r2 heq =>
    have hm : '"' ∈ b.dropWhile isWs := by
      rw [heq]
      exact List.mem_cons_self _ _
    exact (List.dropWhile_sublist _).subset hm
  next => cases h

theorem viewMatch_mem {b : Str} {p : Str × Str}
    (h : viewMatch b = some p) : '"' ∈ b := by
  simp only [viewMatch] at h
  split at h
  next r2 heq =>
    have hm : '"' ∈ b.dropWhile isWs := by
      rw [heq]
      exact List.mem_cons_self _ _
    exact (List.dropWhile_sublist _).subset hm
  next => cases h

theorem quoteGt_mem {left b : Str} {p : Str × Str}
    (h : quoteGtMatch left b = some p) : '"' ∈ b := by
  simp only [quoteGtMatch] at h
  by_cases hl : endsValidTag left = true
  · rw [if_pos hl] at h
    cases h
  · rw [if_neg hl] at h
    rw [drop_takeWhile_len] at h
    split at h
    next r2 heq =>
      have hm : '"' ∈ b.dropWhile isWs := by
        rw [heq]
        exact List.mem_cons_self _ _
      exact (List.dropWhile_sublist _).subset hm
    next => cases h

/-! ## No-match combinators -/

theorem gsub_id_mem {m : Str → Option (Str × Str)} {d : Char}
    (hm : ∀ b p, m b = some p → d ∈ b) {s : Str} (hs : d ∉ s) (fuel : Nat) :
    gsub m fuel s = s := by
  refine gsub_id (fun b hb => ?_) fuel
  cases hmb : m b with
  | none => rfl
  | some p => exact absurd (hb.subset (hm b p hmb)) hs

theorem gsub_id_lc {m : Str → Option (Str × Str)} {d : Char}
    (hm : ∀ b p, m b = some p → ∃ c ∈ b, lcChar c = d) {s : Str}
    (hs : LcFree d s) (fuel : Nat) : gsub m fuel s = s := by
  refine gsub_id (fun b hb => ?_) fuel
  cases hmb : m b with
  | none => rfl
  | some p =>
    rcases hm b p hmb with ⟨c, hc1, hc2⟩
    exact absurd hc2 (hs c (hb.subset hc1))

theorem gsubCap_id_mem {m : Str → Option (Str × Str)} {ph : Nat → Str} {d : Char}
    (hm : ∀ b p, m b = some p → d ∈ b) {s : Str} (hs : d ∉ s) (fuel n : Nat) :
    gsubCap m ph fuel n s = (s, []) := by
  refine gsubCap_id (fun b hb => ?_) fuel n
  cases hmb : m b with
  | none => rfl
  | some p => exact absurd (hb.subset (hm b p hmb)) hs

theorem gsubCap_id_lc {m : Str → Option (Str × Str)} {ph : Nat → Str} {d : Char}
    (hm : ∀ b p, m b = some p → ∃ c ∈ b, lcChar c = d) {s : Str}
    (hs : LcFree d s) (fuel n : Nat) : gsubCap m ph fuel n s = (s, []) := by
  refine gsubCap_id (fun b hb => ?_) fuel n
  cases hmb : m b with
  | none => rfl
  | some p =>
    rcases hm b p hmb with ⟨c, hc1, hc2⟩
    exact absurd hc2 (hs c (hb.subset hc1))

theorem gsubL_id_mem {m : Str → Str → Option (Str × Str)} {d : Char}
    (hm : ∀ left b p, m left b = some p → d ∈ b) {s : Str} (hs : d ∉ s)
    (fuel : Nat) (left : Str) : gsubL m fuel left s = s := by
  refine gsubL_id (fun l b hb => ?_) fuel left
  cases hmb : m l b with
  | none => rfl
  | some p => exact absurd (hb.subset (hm l b p hmb)) hs

theorem urlPass_id_colon {s : Str} (hs : ':' ∉ s) (fuel : Nat) (left : Str) :
    urlPass fuel left s = s := by
  refine urlPass_id (fun b hb => ?_) fuel left
  cases hmb : urlTake b with
  | none => rfl
  | some p => exact absurd (hb.subset (urlTake_colon hmb)) hs

theorem replaceAllLit_id {c₀ : Char} {pr repl s : Str} (hs : c₀ ∉ s) :
    replaceAllLit (c₀ :: pr) repl s = s := by
  refine gsub_id (fun b hb => ?_) _
  by_cases hp : (c₀ :: pr).isPrefixOf b = true
  · exfalso
    rcases (List.isPrefixOf_iff_prefix.mp hp) with ⟨r, hr⟩
    have hc : c₀ ∈ b := by
      rw [← hr]
      exact List.mem_append.mpr (Or.inl (List.mem_cons_self _ _))
    exact hs (hb.subset hc)
  · rw [if_neg hp]

/-! ## The dash and `<br>` cleanup passes: conditional no-match analysis -/

theorem dashEnd_fires {b : Str} {p : Str × Str} (h : dashEndMatch b = some p) :
    ∃ a r2, b = a ++ '-' :: r2 ∧
      ((str "<br>").isPrefixOf (r2.dropWhile isWs) = true ∨
        r2.dropWhile isWs = []) := by
  simp only [dashEndMatch] at h
  split at h
  next r2 heq =>
    have hsplit : b = b.takeWhile isWs ++ '-' :: r2 := by
      rw [← heq, List.takeWhile_append_dropWhile]
    refine ⟨b.takeWhile isWs, r2, hsplit, ?_⟩
    by_cases h1 : (str "<br>").isPrefixOf (r2.dropWhile isWs) = true
    · exact Or.inl h1
    · rw [if_neg h1] at h
      by_cases h2 : r2.dropWhile isWs = []
      · exact Or.inr h2
      · rw [if_neg h2] at h
        cases h
  next => cases h

theorem gsub_dashEnd_id {s : Str}
    (h : ∀ a r2, s = a ++ '-' :: r2 →
      ¬ ((str "<br>").isPrefixOf (r2.dropWhile isWs) = true ∨
        r2.dropWhile isWs = [])) (fuel : Nat) :
    gsub dashEndMatch fuel s = s := by
  refine gsub_id (fun b hb => ?_) fuel
  cases hmb : dashEndMatch b with
  | none => rfl
  | some p =>
    exfalso
    rcases dashEnd_fires hmb with ⟨a, r2, hba, hbad⟩
    rcases hb with ⟨t, ht⟩
    exact h (t ++ a) r2 (by rw [← ht, hba, List.append_assoc]) hbad

theorem no_br_pref {s : Str}
    (h : ∀ a r, s = a ++ '<' :: r → r.head? ≠ some 'b') :
    ∀ b, b <:+ s → ¬ ((str "<br>").isPrefixOf b = true) := by
  intro b hb hp
  rcases (List.isPrefixOf_iff_prefix.mp hp) with ⟨r, hr⟩
  rcases hb with ⟨t, ht⟩
  have hs : s = t ++ '<' :: ('b' :: 'r' :: '>' :: r) := by
    rw [← ht, ← hr]
    rfl
  exact h t _ hs rfl

theorem gsub_brDash_id {s : Str}
    (h : ∀ a r, s = a ++ '<' :: r → r.head? ≠ some 'b') (fuel : Nat) :
    gsub brDashMatch fuel s = s := by
  refine gsub_id (fun b hb => ?_) fuel
  cases hmb : brDashMatch b with
  | none => rfl
  | some p => exact absurd (brDash_pref hmb) (no_br_pref h b hb)

theorem gsub_brRun_id {s : Str}
    (h : ∀ a r, s = a ++ '<' :: r → r.head? ≠ some 'b') (fuel : Nat) :
    gsub brRunMatch fuel s = s := by
  refine gsub_id (fun b hb => ?_) fuel
  cases hmb : brRunMatch b with
  | none => rfl
  | some p => exact absurd (brRunMatch_pref hmb) (no_br_pref h b hb)

theorem dashLinePass_id {s : Str} {fuel : Nat}
    (hh : ∀ r2, s.dropWhile isWs ≠ '-' :: r2)
    (hbr : ∀ a r, s = a ++ '<' :: r → r.head? ≠ some 'b') :
    dashLinePass fuel s = s := by
  rw [dashLinePass]
  split
  next r2 heq => exact absurd heq (hh r2)
  next => exact gsub_brDash_id hbr fuel

/-! ## Escaping lemmas -/

theorem escChar_safe {c : Char} (h : SafeCh c) : escChar c = [c] := by
  rw [escChar]
  rw [if_neg (h.ne (by decide)), if_neg (h.ne (by decide)),
    if_neg (h.ne (by decide)), if_neg (h.ne (by decide)),
    if_neg (h.ne (by decide))]

theorem escapeHtml_safe {s : Str} (h : ∀ c ∈ s, SafeCh c) :
    escapeHtml s = s := by
  induction s with
  | nil => rfl
  | cons c t ih =>
    rw [escapeHtml] at *
    rw [List.flatMap_cons, escChar_safe (h c (List.mem_cons_self _ _)),
      ih (fun d hd => h d (List.mem_cons_of_mem _ hd))]
    rfl

theorem phSplitMatch_none_head {c : Char} {t : Str} (h : c ≠ '_') :
    phSplitMatch (c :: t) = none := by
  have h1 : phMatchTag (str "__EXISTING_LINK_") (c :: t) = none := by
    rw [(by decide : str "__EXISTING_LINK_" = '_' :: str "_EXISTING_LINK_")]
    exact phMatchTag_none h
  have h2 : phMatchTag (str "__MARKDOWN_LINK_") (c :: t) = none := by
    rw [(by decide : str "__MARKDOWN_LINK_" = '_' :: str "_MARKDOWN_LINK_")]
    exact phMatchTag_none h
  have h3 : phMatchTag (str "__BR_TAG_") (c :: t) = none := by
    rw [(by decide : str "__BR_TAG_" = '_' :: str "_BR_TAG_")]
    exact phMatchTag_none h
  have h4 : phMatchTag (str "__BOLD_TAG_") (c :: t) = none := by
    rw [(by decide : str "__BOLD_TAG_" = '_' :: str "_BOLD_TAG_")]
    exact phMatchTag_none h
  rw [phSplitMatch, h1, h2, h3, h4]
  rfl

theorem escapeOutsidePh_safe {s : Str} (hs : ∀ c ∈ s, SafeCh c) :
    ∀ {fuel : Nat}, s.length < fuel → escapeOutsidePh fuel s = s := by
  induction s with
  | nil =>
    intro fuel hf
    cases fuel with
    | zero => rfl
    | succ n => rfl
  | cons c t ih =>
    intro fuel hf
    cases fuel with
    | zero => omega
    | succ n =>
      rw [escapeOutsidePh,
        phSplitMatch_none_head ((hs c (List.mem_cons_self _ _)).ne (by decide)),
        escChar_safe (hs c (List.mem_cons_self _ _)),
        ih (fun d hd => hs d (List.mem_cons_of_mem _ hd))
          (by simpa using Nat.lt_of_succ_lt_succ hf)]
      rfl

theorem phMatchTag_pos {tg ds rest : Str} (hds : ds ≠ [])
    (hdig : ∀ c ∈ ds, c.isDigit = true) :
    phMatchTag tg (tg ++ (ds ++ '_' :: '_' :: rest)) =
      some (tg ++ ds ++ str "__", rest) := by
  have hpre : tg.isPrefixOf (tg ++ (ds ++ '_' :: '_' :: rest)) = true := by
    simp [List.isPrefixOf_iff_prefix]
  rw [phMatchTag, if_pos hpre, List.drop_left' rfl]
  have htk : (ds ++ '_' :: '_' :: rest).takeWhile Char.isDigit = ds := by
    rw [List.takeWhile_append_of_pos hdig, List.takeWhile_cons_of_neg (by decide)]
    exact List.append_nil ds
  have hdw : (ds ++ '_' :: '_' :: rest).dropWhile Char.isDigit =
      '_' :: '_' :: rest := by
    rw [List.dropWhile_append]
    have hnil : (ds.dropWhile Char.isDigit) = [] := by
      rw [List.dropWhile_eq_nil_iff]
      exact hdig
    rw [hnil]
    simp only [List.isEmpty_nil, if_pos]
    rw [List.dropWhile_cons_of_neg (by decide)]
  simp only [htk, hdw]
  have hcond : ds ≠ [] ∧ (str "__").isPrefixOf ('_' :: '_' :: rest) = true := by
    refine ⟨hds, ?_⟩
    rw [(by decide : str "__" = '_' :: '_' :: ([] : Str))]
    simp only [List.isPrefixOf_iff_prefix]
    exact ⟨rest, rfl⟩
  rw [if_pos hcond]
  rfl

theorem phSplitMatch_existing (rest : Str) :
    phSplitMatch (phExisting 0 ++ rest) = some (phExisting 0, rest) := by
  have he : phExisting 0 ++ rest =
      str "__EXISTING_LINK_" ++ (['0'] ++ '_' :: '_' :: rest) := by
    rw [phExisting, (by decide : natDigits 0 = ['0']),
      (by decide : str "__" = '_' :: '_' :: ([] : Str))]
    simp
  have hval : str "__EXISTING_LINK_" ++ ['0'] ++ str "__" = phExisting 0 := by
    rw [phExisting, (by decide : natDigits 0 = ['0'])]
  rw [he, phSplitMatch, phMatchTag_pos (by decide) (by decide), hval]
  rfl

theorem phSplitMatch_markdown (rest : Str) :
    phSplitMatch (phMarkdown 0 ++ rest) = some (phMarkdown 0, rest) := by
  have hne : phMatchTag (str "__EXISTING_LINK_") (phMarkdown 0 ++ rest) = none := by
    rw [phMatchTag, if_neg]
    intro hp
    rcases (List.isPrefixOf_iff_prefix.mp hp) with ⟨r, hr⟩
    have h3 : (phMarkdown 0 ++ rest).take 3 = (str "__EXISTING_LINK_" ++ r).take 3 := by
      rw [hr]
    rw [(by decide : phMarkdown 0 = str "__M" ++ str "ARKDOWN_LINK_0__"),
      (by decide : str "__EXISTING_LINK_" = str "__E" ++ str "XISTING_LINK_")] at h3
    rw [List.append_assoc, List.append_assoc] at h3
    rw [List.take_append_of_le_length (by decide),
      List.take_append_of_le_length (by decide)] at h3
    exact absurd h3 (by decide)
  have hm : phMarkdown 0 ++ rest =
      str "__MARKDOWN_LINK_" ++ (['0'] ++ '_' :: '_' :: rest) := by
    rw [phMarkdown, (by decide : natDigits 0 = ['0']),
      (by decide : str "__" = '_' :: '_' :: ([] : Str))]
    simp
  have hval : str "__MARKDOWN_LINK_" ++ ['0'] ++ str "__" = phMarkdown 0 := by
    rw [phMarkdown, (by decide : natDigits 0 = ['0'])]
  rw [phSplitMatch, hne, hm, phMatchTag_pos (by decide) (by decide), hval]
  rfl

theorem escapeOutsidePh_ph {PH : Str} (hPH : PH ≠ [])
    (hph : ∀ rest, phSplitMatch (PH ++ rest) = some (PH, rest)) :
    ∀ (p : Str), (∀ c ∈ p, SafeCh c) → ∀ {s : Str}, (∀ c ∈ s, SafeCh c) →
    ∀ {fuel : Nat}, (p ++ PH ++ s).length < fuel →
    escapeOutsidePh fuel (p ++ PH ++ s) = p ++ PH ++ s := by
  intro p
  induction p with
  | nil =>
    intro _ s hs fuel hf
    cases fuel with
    | zero => simp at hf
    | succ n =>
      rcases hPHc : PH with _ | ⟨c, PHt⟩
      · exact absurd hPHc hPH
      · have hm : phSplitMatch (c :: (PHt ++ s)) = some (c :: PHt, s) := by
          have := hph s
          rw [hPHc] at this
          simpa using this
        show (match phSplitMatch (c :: (PHt ++ s)) with
          | some (ph, rest) => ph ++ escapeOutsidePh n rest
          | none => escChar c ++ escapeOutsidePh n (PHt ++ s)) = c :: (PHt ++ s)
        rw [hm]
        have hlen : s.length < n := by
          rw [hPHc] at hf
          simp only [List.nil_append, List.cons_append, List.length_cons,
            List.length_append] at hf
          omega
        show (c :: PHt) ++ escapeOutsidePh n s = c :: (PHt ++ s)
        rw [escapeOutsidePh_safe hs hlen]
        rfl
  | cons c p' ih =>
    intro hp s hs fuel hf
    cases fuel with
    | zero => simp at hf
    | succ n =>
      have hc : SafeCh c := hp c (List.mem_cons_self _ _)
      simp only [List.cons_append, List.append_assoc]
      have hnone := phSplitMatch_none_head (c := c) (t := p' ++ (PH ++ s))
        (hc.ne (by decide))
      show (match phSplitMatch (c :: (p' ++ (PH ++ s))) with
        | some (ph, rest) => ph ++ escapeOutsidePh n rest
        | none => escChar c ++ escapeOutsidePh n (p' ++ (PH ++ s))) =
          c :: (p' ++ (PH ++ s))
      rw [hnone, escChar_safe hc]
      have hlen2 : (p' ++ PH ++ s).length < n := by
        simp only [List.cons_append, List.length_cons] at hf
        simp only [List.length_append]
        simp only [List.length_append] at hf
        omega
      have hrec := ih (fun d hd => hp d (List.mem_cons_of_mem _ hd)) hs hlen2
      rw [List.append_assoc] at hrec
      rw [hrec]
      rfl

/-! ## The preserved-anchor shape -/

/-- The anchor tag `<a href="U">T</a>` of the preservation property. -/
def anchorStr (U T : Str) : Str :=
  str "<a href=\"" ++ U ++ str "\">" ++ T ++ str "</a>"

theorem anchorStr_eq (U T : Str) :
    anchorStr U T = '<' :: 'a' :: ' ' :: 'h' :: 'r' :: 'e' :: 'f' :: '=' :: '"' ::
      (U ++ '"' :: '>' :: (T ++ '<' :: '/' :: 'a' :: '>' :: [])) := by
  rw [anchorStr,
    (by decide : str "<a href=\"" =
      ['<', 'a', ' ', 'h', 'r', 'e', 'f', '=', '"']),
    (by decide : str "\">" = ['"', '>']),
    (by decide : str "</a>" = ['<', '/', 'a', '>'])]
  simp [List.cons_append, List.append_assoc]

theorem scanAnchors_no {s : Str} (h : '<' ∉ s) (fuel : Nat) :
    scanAnchors fuel s = [.inl s] := by
  cases fuel with
  | zero => rfl
  | succ n =>
    rw [scanAnchors, (by decide : str "<a" = '<' :: str "a"),
      splitFirst_none_of_head h]

theorem scanMarkdown_no {s : Str} (h : '[' ∉ s) (fuel : Nat) :
    scanMarkdown fuel s = [.inl s] := by
  cases fuel with
  | zero => rfl
  | succ n =>
    rw [scanMarkdown, (by decide : str "[" = '[' :: str ""),
      splitFirst_none_of_head h]

theorem splitFirst_mid' {c₀ : Char} {pr x y : Str} (h : c₀ ∉ x) :
    splitFirst (c₀ :: pr) (x ++ (c₀ :: (pr ++ y))) = some (x, y) := by
  have h2 : splitFirst (c₀ :: pr) (x ++ ((c₀ :: pr) ++ y)) = some (x, y) :=
    splitFirst_mid h
  rw [show x ++ ((c₀ :: pr) ++ y) = x ++ (c₀ :: (pr ++ y)) by
    simp [List.cons_append]] at h2
  exact h2

theorem splitFirst_one {c₀ : Char} {x y : Str} (h : c₀ ∉ x) :
    splitFirst [c₀] (x ++ (c₀ :: y)) = some (x, y) := by
  have h2 : splitFirst (c₀ :: ([] : Str)) (x ++ ((c₀ :: ([] : Str)) ++ y)) =
      some (x, y) := splitFirst_mid h
  rw [show x ++ ((c₀ :: ([] : Str)) ++ y) = x ++ (c₀ :: y) by simp] at h2
  exact h2

theorem scanAnchors_anchor {p U T s : Str} (hp : '<' ∉ p) (hU1 : '>' ∉ U)
    (hT : '<' ∉ T) (hs : '<' ∉ s) {fuel : Nat} (hf : 1 ≤ fuel) :
    scanAnchors fuel (p ++ anchorStr U T ++ s) =
      [.inl p, .inr (anchorStr U T), .inl s] := by
  cases fuel with
  | zero => omega
  | succ n =>
    have h1 : splitFirst (str "<a") (p ++ anchorStr U T ++ s) =
        some (p, ' ' :: 'h' :: 'r' :: 'e' :: 'f' :: '=' :: '"' ::
          (U ++ '"' :: '>' :: (T ++ '<' :: '/' :: 'a' :: '>' :: s))) := by
      rw [(by decide : str "<a" = '<' :: str "a"),
        show p ++ anchorStr U T ++ s =
          p ++ ('<' :: (str "a" ++ (' ' :: 'h' :: 'r' :: 'e' :: 'f' :: '=' :: '"' ::
            (U ++ '"' :: '>' :: (T ++ '<' :: '/' :: 'a' :: '>' :: s))))) by
          rw [anchorStr_eq, (by decide : str "a" = ['a'])]
          simp [List.cons_append, List.append_assoc]]
      exact splitFirst_mid' hp
    have h2 : splitFirst (str ">")
        (' ' :: 'h' :: 'r' :: 'e' :: 'f' :: '=' :: '"' ::
          (U ++ '"' :: '>' :: (T ++ '<' :: '/' :: 'a' :: '>' :: s))) =
        some (' ' :: 'h' :: 'r' :: 'e' :: 'f' :: '=' :: '"' :: (U ++ ['"']),
          T ++ '<' :: '/' :: 'a' :: '>' :: s) := by
      rw [(by decide : str ">" = ['>']),
        show (' ' :: 'h' :: 'r' :: 'e' :: 'f' :: '=' :: '"' ::
          (U ++ '"' :: '>' :: (T ++ '<' :: '/' :: 'a' :: '>' :: s))) =
          (' ' :: 'h' :: 'r' :: 'e' :: 'f' :: '=' :: '"' :: (U ++ ['"'])) ++
            ('>' :: (T ++ '<' :: '/' :: 'a' :: '>' :: s)) by
          simp [List.cons_append, List.append_assoc]]
      refine splitFirst_one ?_
      simp only [List.mem_cons, List.mem_append, not_or]
      refine ⟨by decide, by decide, by decide, by decide, by decide, by decide,
        by decide, hU1, by decide⟩
    have h3 : splitFirst (str "</a>") (T ++ '<' :: '/' :: 'a' :: '>' :: s) =
        some (T, s) := by
      rw [(by decide : str "</a>" = '<' :: str "/a>"),
        show T ++ '<' :: '/' :: 'a' :: '>' :: s =
          T ++ ('<' :: (str "/a>" ++ s)) by
          rw [(by decide : str "/a>" = ['/', 'a', '>'])]
          simp [List.cons_append]]
      exact splitFirst_mid' hT
    have hfull : str "<a" ++ (' ' :: 'h' :: 'r' :: 'e' :: 'f' :: '=' :: '"' ::
        (U ++ ['"'])) ++ str ">" ++ T ++ str "</a>" = anchorStr U T := by
      rw [anchorStr_eq, (by decide : str "<a" = ['<', 'a']),
        (by decide : str ">" = ['>']), (by decide : str "</a>" = ['<', '/', 'a', '>'])]
      simp [List.cons_append, List.append_assoc]
    have hcont : containsSub (str "<a" ++ (' ' :: 'h' :: 'r' :: 'e' :: 'f' :: '=' :: '"' ::
        (U ++ ['"'])) ++ str ">" ++ T ++ str "</a>") (str "href") = true := by
      have := containsSub_mid ['<', 'a', ' '] (str "href")
        ('=' :: '"' :: (U ++ '"' :: '>' :: (T ++ '<' :: '/' :: 'a' :: '>' :: [])))
      rw [show ['<', 'a', ' '] ++ (str "href" ++ ('=' :: '"' ::
          (U ++ '"' :: '>' :: (T ++ '<' :: '/' :: 'a' :: '>' :: [])))) =
          str "<a" ++ (' ' :: 'h' :: 'r' :: 'e' :: 'f' :: '=' :: '"' ::
          (U ++ ['"'])) ++ str ">" ++ T ++ str "</a>" by
        rw [(by decide : str "<a" = ['<', 'a']), (by decide : str ">" = ['>']),
          (by decide : str "</a>" = ['<', '/', 'a', '>']),
          (by decide : str "href" = ['h', 'r', 'e', 'f'])]
        simp [List.cons_append, List.append_assoc]] at this
      exact this
    have hcont' : containsSub (anchorStr U T) (str "href") = true := by
      rw [← hfull]
      exact hcont
    rw [scanAnchors]
    simp only [h1, h2, h3, hfull, hcont', if_true]
    rw [scanAnchors_no hs n]

/-! ## Suffix-condition analysis for the dash and `<br>` passes on
anchor-shaped text -/

/-- The tail following a `-` is harmless for `/\s*-\s*(<br>|$)/`: after
skipping whitespace something remains and it is not `<br>`. -/
def GoodTail (r : Str) : Prop :=
  ¬ ((str "<br>").isPrefixOf (r.dropWhile isWs) = true ∨ r.dropWhile isWs = [])

theorem brPrefix_head {z : Str} {d : Char}
    (h : (str "<br>").isPrefixOf (d :: z) = true) : d = '<' := by
  rw [(by decide : str "<br>" = '<' :: str "br>")] at h
  rcases (List.isPrefixOf_iff_prefix.mp h) with ⟨r, hr⟩
  injection hr with h1 _
  exact h1.symm

theorem goodTail_head {d : Char} {z : Str} (hd1 : isWs d = false)
    (hd2 : d ≠ '<') : GoodTail (d :: z) := by
  rw [GoodTail, List.dropWhile_cons_of_neg (by simp [hd1])]
  rintro (h | h)
  · exact hd2 (brPrefix_head h)
  · cases h

theorem goodTail_safe_append {u2 rest : Str} (hu : ∀ c ∈ u2, SafeCh c)
    (hrest : GoodTail rest) : GoodTail (u2 ++ rest) := by
  rw [GoodTail, List.dropWhile_append]
  by_cases he : (u2.dropWhile isWs).isEmpty = true
  · rw [if_pos he]
    exact hrest
  · rw [if_neg he]
    rcases hd : u2.dropWhile isWs with _ | ⟨d, ds⟩
    · rw [hd] at he
      simp at he
    · have hdu : d ∈ u2 := (List.dropWhile_sublist _).subset
        (hd ▸ List.mem_cons_self _ _)
      rw [List.cons_append]
      rintro (h | h)
      · exact (hu d hdu).ne (by decide) (brPrefix_head h)
      · cases h

theorem goodTail_close {z : Str} : GoodTail ('<' :: '/' :: z) := by
  rw [GoodTail, List.dropWhile_cons_of_neg (by decide)]
  rintro (h | h)
  · rw [(by decide : str "<br>" = '<' :: 'b' :: str "r>")] at h
    rcases (List.isPrefixOf_iff_prefix.mp h) with ⟨r, hr⟩
    injection hr with _ hr2
    injection hr2 with h2 _
    cases h2
  · cases h

theorem mem_of_left_split {x x₁ x₂ : Str} {c : Char} (he : x = x₁ ++ c :: x₂) :
    ∀ d ∈ x₂, d ∈ x := by
  intro d hd
  rw [he]
  exact List.mem_append.mpr (Or.inr (List.mem_cons_of_mem _ hd))

/-- Every `-` inside `p ++ anchorStr U T ++ s` (plain text around, safe
URL/text inside) has a harmless tail. -/
theorem anchor_dash_cond {p U T s : Str} (hp : '-' ∉ p) (hs : '-' ∉ s)
    (hU : ∀ c ∈ U, SafeCh c) (hT : ∀ c ∈ T, SafeCh c) :
    ∀ a r2, p ++ anchorStr U T ++ s = a ++ '-' :: r2 → GoodTail r2 := by
  intro a r2 heq
  rw [anchorStr_eq] at heq
  rw [show p ++ ('<' :: 'a' :: ' ' :: 'h' :: 'r' :: 'e' :: 'f' :: '=' :: '"' ::
      (U ++ '"' :: '>' :: (T ++ '<' :: '/' :: 'a' :: '>' :: []))) ++ s =
    p ++ (['<', 'a', ' ', 'h', 'r', 'e', 'f', '=', '"'] ++
      (U ++ (['"', '>'] ++ (T ++ (['<', '/', 'a', '>'] ++ s))))) by
    simp [List.cons_append, List.append_assoc]] at heq
  rcases split_append heq with ⟨_, _, hx, _⟩ | ⟨y₁, y₂, hy, hr⟩
  · exact absurd hx (no_split_of_notMem hp)
  rcases split_append hy with ⟨_, _, hx, _⟩ | ⟨yb1, yb2, hyb, hrb⟩
  · exact absurd hx (no_split_of_notMem (by decide))
  subst hr
  subst hrb
  rcases split_append hyb with ⟨x₁, x₂, hx, hb⟩ | ⟨z₁, z₂, hz, hrz⟩
  · -- the dash lies inside U
    subst hb
    refine goodTail_safe_append (fun d hd => hU d (mem_of_left_split hx d hd)) ?_
    exact goodTail_head (by decide) (by decide)
  subst hrz
  rcases split_append hz with ⟨_, _, hx, _⟩ | ⟨w₁, w₂, hw, hrw⟩
  · exact absurd hx (no_split_of_notMem (by decide))
  subst hrw
  rcases split_append hw with ⟨x₁, x₂, hx, hb⟩ | ⟨v₁, v₂, hv, hrv⟩
  · -- the dash lies inside T
    subst hb
    refine goodTail_safe_append (fun d hd => hT d (mem_of_left_split hx d hd)) ?_
    exact goodTail_close
  subst hrv
  rcases split_append hv with ⟨_, _, hx, _⟩ | ⟨q₁, q₂, hq, hrq⟩
  · exact absurd hx (no_split_of_notMem (by decide))
  · exact absurd hq (no_split_of_notMem hs)

/-- Every `<` inside `p ++ anchorStr U T ++ s` is followed by `a` or `/`,
never `b`, so no suffix starts with `<br>`. -/
theorem anchor_lt_cond {p U T s : Str} (hp : '<' ∉ p) (hs : '<' ∉ s)
    (hU : '<' ∉ U) (hT : '<' ∉ T) :
    ∀ a r, p ++ anchorStr U T ++ s = a ++ '<' :: r → r.head? ≠ some 'b' := by
  intro a r heq
  rw [anchorStr_eq] at heq
  rw [show p ++ ('<' :: 'a' :: ' ' :: 'h' :: 'r' :: 'e' :: 'f' :: '=' :: '"' ::
      (U ++ '"' :: '>' :: (T ++ '<' :: '/' :: 'a' :: '>' :: []))) ++ s =
    p ++ (['<', 'a', ' ', 'h', 'r', 'e', 'f', '=', '"'] ++
      (U ++ (['"', '>'] ++ (T ++ (['<', '/', 'a', '>'] ++ s))))) by
    simp [List.cons_append, List.append_assoc]] at heq
  rcases split_append heq with ⟨_, _, hx, _⟩ | ⟨y₁, y₂, hy, hr⟩
  · exact absurd hx (no_split_of_notMem hp)
  subst hr
  rcases split_append hy with ⟨x₁, x₂, hx, hb⟩ | ⟨z₁, z₂, hz, hrz⟩
  · -- the `<` opens the anchor tag: next character is `a`
    subst hb
    have := mem_tailsAfter_of_split hx
    simp [tailsAfter] at this
    subst this
    simp
  subst hrz
  rcases split_append hz with ⟨x₁, x₂, hx, hb⟩ | ⟨w₁, w₂, hw, hrw⟩
  · exact absurd hx (no_split_of_notMem hU)
  subst hrw
  rcases split_append hw with ⟨x₁, x₂, hx, hb⟩ | ⟨v₁, v₂, hv, hrv⟩
  · exact absurd hx (no_split_of_notMem (by decide))
  subst hrv
  rcases split_append hv with ⟨x₁, x₂, hx, hb⟩ | ⟨q₁, q₂, hq, hrq⟩
  · exact absurd hx (no_split_of_notMem hT)
  subst hrq
  rcases split_append hq with ⟨x₁, x₂, hx, hb⟩ | ⟨e₁, e₂, he, hre⟩
  · -- the `<` closes the anchor tag: next character is `/`
    subst hb
    have := mem_tailsAfter_of_split hx
    simp [tailsAfter] at this
    subst this
    simp
  · exact absurd he (no_split_of_notMem hs)

/-! ## Stage computation helpers -/

theorem renderAnchorSegs_lit (ph : Nat → Str) (m : Nat) (t : Str) (j : Nat) :
    renderAnchorSegs ph m [.inl t] j = t := by
  simp [renderAnchorSegs]

theorem renderAnchorSegs_single (ph : Nat → Str) (p A s : Str) :
    renderAnchorSegs ph 1 [.inl p, .inr A, .inl s] 0 = p ++ ph 0 ++ s := by
  simp [renderAnchorSegs]

theorem segAnchors_lit (t : Str) : segAnchors [.inl t] = [] := rfl

theorem segAnchors_single (p A s : Str) :
    segAnchors [.inl p, .inr A, .inl s] = [A] := rfl

theorem anchorAList_lit (ph : Nat → Str) (t : Str) :
    anchorAList ph [.inl t] = [] := rfl

theorem anchorAList_single (ph : Nat → Str) (p A s : Str) :
    anchorAList ph [.inl p, .inr A, .inl s] = [(ph 0, A)] := rfl

theorem markdownAList_lit (t : Str) : markdownAList [.inl t] = [] := rfl

theorem restoreAll_nil (t : Str) : restoreAll [] t = t := rfl

theorem restoreAll_pair (ph html t : Str) :
    restoreAll [(ph, html)] t = replaceFirst ph html t := rfl

theorem replaceFirst_mid' {c₀ : Char} {pr repl x y : Str} (h : c₀ ∉ x) :
    replaceFirst (c₀ :: pr) repl (x ++ (c₀ :: (pr ++ y))) = x ++ repl ++ y := by
  rw [replaceFirst, splitFirst_mid' h]

theorem gsub_dashEnd_id_notMem {s : Str} (h : '-' ∉ s) (fuel : Nat) :
    gsub dashEndMatch fuel s = s :=
  gsub_dashEnd_id (fun a r2 he => absurd he (no_split_of_notMem h)) fuel

theorem gsub_brDash_id_notMem {s : Str} (h : '<' ∉ s) (fuel : Nat) :
    gsub brDashMatch fuel s = s :=
  gsub_brDash_id (fun a r he => absurd he (no_split_of_notMem h)) fuel

theorem gsub_brRun_id_notMem {s : Str} (h : '<' ∉ s) (fuel : Nat) :
    gsub brRunMatch fuel s = s :=
  gsub_brRun_id (fun a r he => absurd he (no_split_of_notMem h)) fuel

theorem dropWhile_cons_result {q : Char → Bool} {l r : Str} {d : Char}
    (h : l.dropWhile q = d :: r) : d ∈ l :=
  (List.dropWhile_sublist _).subset (h ▸ List.mem_cons_self _ _)

theorem dashLinePass_id_notMem {s : Str} {fuel : Nat} (hd : '-' ∉ s)
    (hlt : '<' ∉ s) : dashLinePass fuel s = s := by
  refine dashLinePass_id (fun r2 he => ?_) (fun a r he => absurd he
    (no_split_of_notMem hlt))
  exact hd (dropWhile_cons_result he)

theorem lcFree_plain {s : Str} {d : Char} (hs : ∀ c ∈ s, PlainCh c)
    (hd : ¬ SafeCh d) : LcFree d s :=
  lcFree_of_safe (fun c hc => (hs c hc).toSafe) hd

theorem notMem_of_plain {l : Str} {d : Char} (hl : ∀ c ∈ l, PlainCh c)
    (hd : ¬ PlainCh d) : d ∉ l :=
  fun hm => hd (hl d hm)

theorem phRemove_mem_und {tg : Str} (htg : tg.head? = some '_') :
    ∀ b p, phRemoveMatch tg b = some p → '_' ∈ b :=
  fun _ _ h => phRemove_mem htg h

/-- The Linkifier is the identity on plain text (lowercase letters, digits
and spaces): no step of the pipeline fires. -/
theorem convertLinksToHTML_plain {t : Str} (ht : ∀ c ∈ t, PlainCh c) :
    convertLinksToHTML t = t := by
  by_cases h0 : t = []
  · subst h0
    rfl
  · have hsafe : ∀ c ∈ t, SafeCh c := fun c hc => (ht c hc).toSafe
    have hnm : ∀ d, ¬ SafeCh d → d ∉ t := fun d hd => notMem_of_safe hsafe hd
    have hlc : ∀ d, ¬ SafeCh d → LcFree d t := fun d hd => lcFree_plain ht hd
    have hwl1 : ∀ b p, wsLitWsMatch (str "target=\"_blank\"") b = some p →
        ∃ c ∈ b, lcChar c = '"' := fun b p h => wsLitWs_lc (by decide) h
    have hwl2 : ∀ b p, wsLitWsMatch (str "rel=\"noopener noreferrer\"") b =
        some p → ∃ c ∈ b, lcChar c = '"' := fun b p h => wsLitWs_lc (by decide) h
    rw [convertLinksToHTML, if_neg h0]
    simp only [scanAnchors_no (hnm '<' (by decide)), segAnchors_lit,
      anchorAList_lit, renderAnchorSegs_lit,
      gsubCap_id_lc (fun _ _ h => brMatch_lc h) (hlc '<' (by decide)),
      gsub_id_mem (fun _ _ h => boldMatch_mem h) (hnm '*' (by decide)),
      gsubCap_id_lc (fun _ _ h => strongMatch_lc h) (hlc '<' (by decide)),
      scanMarkdown_no (hnm '[' (by decide)), markdownAList_lit,
      List.enum_nil, List.map_nil, restoreAll_nil,
      escapeOutsidePh_safe hsafe (Nat.lt_succ_self _),
      urlPass_id_colon (hnm ':' (by decide)),
      gsub_id_mem (phRemove_mem_und
        (by decide : (str "__EXISTING_LINK_").head? = some '_'))
        (hnm '_' (by decide)),
      gsub_id_mem (phRemove_mem_und
        (by decide : (str "__BR_TAG_").head? = some '_')) (hnm '_' (by decide)),
      gsub_id_mem (phRemove_mem_und
        (by decide : (str "__BOLD_TAG_").head? = some '_')) (hnm '_' (by decide)),
      gsub_id_mem (fun _ _ h => mdJunk1_mem h) (hnm ']' (by decide)),
      gsub_id_mem (fun _ _ h => mdJunk2_mem h) (hnm '[' (by decide)),
      gsub_dashEnd_id_notMem (notMem_of_plain ht (by decide)),
      dashLinePass_id_notMem (notMem_of_plain ht (by decide)) (hnm '<' (by decide)),
      gsub_brRun_id_notMem (hnm '<' (by decide)),
      gsub_id_mem (fun _ _ h => phJunk_mem h) (hnm '_' (by decide)),
      gsub_id_lc hwl1 (hlc '"' (by decide)),
      gsub_id_lc hwl2 (hlc '"' (by decide)),
      gsub_id_lc (fun _ _ h => styleMatch_mem h) (hlc '"' (by decide)),
      gsub_id_mem (fun _ _ h => viewProduct_mem h) (hnm '"' (by decide)),
      gsub_id_mem (fun _ _ h => viewMatch_mem h) (hnm '"' (by decide)),
      gsubL_id_mem (fun _ _ _ h => quoteGt_mem h) (hnm '"' (by decide)),
      gsub_id_lc (fun _ _ h => emptyA_lc h) (hlc '<' (by decide)),
      gsub_id_mem (fun _ _ h => closeAParen_mem h) (hnm '<' (by decide)),
      gsub_id_mem (fun _ _ h => parenCloseA_mem h) (hnm ')' (by decide))]
    exact replaceAllLit_id (hnm '\n' (by decide))

/-! ## Claim C2: idempotence of the Linkifier -/

/-- Claim C2 (counterexample): the Linkifier is not idempotent. On the
markdown-free input `a & b` the first run escapes `&` to `&amp;`, and the
second run escapes that output again, producing `a &amp;amp; b`: running
`convertLinksToHTML` twice differs from running it once. -/
theorem C2_not_idempotent :
    convertLinksToHTML (convertLinksToHTML (str "a & b")) ≠
      convertLinksToHTML (str "a & b") := by
  decide

/-- Claim C2 (amended): the Linkifier is idempotent on plain text, text made
of lowercase letters, digits and spaces, because it is the identity there:
no escaping, placeholder, markdown, URL or cleanup step fires. -/
theorem C2_idempotent_on_plain {t : Str} (ht : ∀ c ∈ t, PlainCh c) :
    convertLinksToHTML (convertLinksToHTML t) = convertLinksToHTML t := by
  rw [convertLinksToHTML_plain ht, convertLinksToHTML_plain ht]

/-- Witness for C2's amended theorem at the concrete plain input
`hello world 42`. -/
theorem C2_idempotent_on_plain_witness :
    (∀ c ∈ str "hello world 42", PlainCh c) ∧
    convertLinksToHTML (convertLinksToHTML (str "hello world 42")) =
      convertLinksToHTML (str "hello world 42") :=
  ⟨by decide, C2_idempotent_on_plain (by decide)⟩

/-! ## Claim C1: preservation of an existing anchor tag -/

instance (d : Char) (s : Str) : Decidable (LcFree d s) := by
  unfold LcFree
  infer_instance

theorem notMem_of_url {l : Str} {d : Char} (hl : ∀ c ∈ l, UrlCh c)
    (hd : ¬ UrlCh d) : d ∉ l :=
  fun hm => hd (hl d hm)

theorem notMem_anchorStr {U T : Str} {d : Char}
    (hL : d ∉ (['<', 'a', ' ', 'h', 'r', 'e', 'f', '=', '"', '>', '/'] : Str))
    (hU : d ∉ U) (hT : d ∉ T) : d ∉ anchorStr U T := by
  rw [anchorStr_eq]
  intro hm
  simp only [List.mem_cons, List.mem_append, List.not_mem_nil, or_false,
    not_or] at hm hL
  tauto

/-- Claim C1 (amended): on an input `p ++ <a href="U">T</a> ++ s` whose
context `p`, `s` and link text `T` are plain (lowercase letters, digits,
spaces) and whose URL `U` is made of URL-path characters (lowercase
letters, digits, `/`, `-`, `.`), the Linkifier returns the input unchanged,
so the anchor tag survives byte-for-byte with href and text untruncated. -/
theorem C1_anchor_preserved {p U T s : Str}
    (hp : ∀ c ∈ p, PlainCh c) (hs : ∀ c ∈ s, PlainCh c)
    (hU : ∀ c ∈ U, UrlCh c) (hT : ∀ c ∈ T, PlainCh c) :
    convertLinksToHTML (p ++ anchorStr U T ++ s) = p ++ anchorStr U T ++ s := by
  have hpsafe : ∀ c ∈ p, SafeCh c := fun c hc => (hp c hc).toSafe
  have hssafe : ∀ c ∈ s, SafeCh c := fun c hc => (hs c hc).toSafe
  have hUsafe : ∀ c ∈ U, SafeCh c := fun c hc => (hU c hc).safeCh
  have hpnm : ∀ d : Char, ¬ PlainCh d → d ∉ p := fun d hd => notMem_of_plain hp hd
  have hsnm : ∀ d : Char, ¬ PlainCh d → d ∉ s := fun d hd => notMem_of_plain hs hd
  have hUnm : ∀ d : Char, ¬ UrlCh d → d ∉ U := fun d hd => notMem_of_url hU hd
  have hTnm : ∀ d : Char, ¬ PlainCh d → d ∉ T := fun d hd => notMem_of_plain hT hd
  have hxnm : ∀ d : Char, ¬ PlainCh d → ¬ UrlCh d →
      d ∉ (['<', 'a', ' ', 'h', 'r', 'e', 'f', '=', '"', '>', '/'] : Str) →
      d ∉ p ++ anchorStr U T ++ s := by
    intro d hdP hdU hdL hm
    rcases List.mem_append.mp hm with hm | hm
    · rcases List.mem_append.mp hm with hm | hm
      · exact hpnm d hdP hm
      · exact notMem_anchorStr hdL (hUnm d hdU) (hTnm d hdP) hm
    · exact hsnm d hdP hm
  have hynm : ∀ d : Char, ¬ PlainCh d → d ∉ phExisting 0 →
      d ∉ p ++ phExisting 0 ++ s := by
    intro d hdP hdE hm
    rcases List.mem_append.mp hm with hm | hm
    · rcases List.mem_append.mp hm with hm | hm
      · exact hpnm d hdP hm
      · exact hdE hm
    · exact hsnm d hdP hm
  have hznm : ∀ d : Char, ¬ PlainCh d → d ∉ phValid 0 →
      d ∉ p ++ phValid 0 ++ s := by
    intro d hdP hdV hm
    rcases List.mem_append.mp hm with hm | hm
    · rcases List.mem_append.mp hm with hm | hm
      · exact hpnm d hdP hm
      · exact hdV hm
    · exact hsnm d hdP hm
  have hylc : ∀ d : Char, ¬ SafeCh d → LcFree d (phExisting 0) →
      LcFree d (p ++ phExisting 0 ++ s) := fun d hd hph =>
    lcFree_append (lcFree_append (lcFree_plain hp hd) hph) (lcFree_plain hs hd)
  have hzlc : ∀ d : Char, ¬ SafeCh d → LcFree d (phValid 0) →
      LcFree d (p ++ phValid 0 ++ s) := fun d hd hph =>
    lcFree_append (lcFree_append (lcFree_plain hp hd) hph) (lcFree_plain hs hd)
  have hplt : '<' ∉ p := hpnm '<' (by decide)
  have hslt : '<' ∉ s := hsnm '<' (by decide)
  have hUgt : '>' ∉ U := hUnm '>' (by decide)
  have hUlt : '<' ∉ U := hUnm '<' (by decide)
  have hTlt : '<' ∉ T := hTnm '<' (by decide)
  have hxund : '_' ∉ p ++ anchorStr U T ++ s :=
    hxnm '_' (by decide) (by decide) (by decide)
  have hscan : scanAnchors ((p ++ anchorStr U T ++ s).length + 1)
      (p ++ anchorStr U T ++ s) = [.inl p, .inr (anchorStr U T), .inl s] :=
    scanAnchors_anchor hplt hUgt hTlt hslt (by omega)
  have hbrS : ∀ fuel n, gsubCap brMatch phBr fuel n (p ++ phExisting 0 ++ s) =
      (p ++ phExisting 0 ++ s, []) := fun fuel n =>
    gsubCap_id_lc (fun _ _ h => brMatch_lc h)
      (hylc '<' (by decide) (by unfold LcFree; decide)) fuel n
  have hboldS : ∀ fuel, gsub boldMatch fuel (p ++ phExisting 0 ++ s) =
      p ++ phExisting 0 ++ s := fun fuel =>
    gsub_id_mem (fun _ _ h => boldMatch_mem h)
      (hynm '*' (by decide) (by decide)) fuel
  have hstrongS : ∀ fuel n, gsubCap strongMatch phBold fuel n
      (p ++ phExisting 0 ++ s) = (p ++ phExisting 0 ++ s, []) := fun fuel n =>
    gsubCap_id_lc (fun _ _ h => strongMatch_lc h)
      (hylc '<' (by decide) (by unfold LcFree; decide)) fuel n
  have hmdS : ∀ fuel, scanMarkdown fuel (p ++ phExisting 0 ++ s) =
      [.inl (p ++ phExisting 0 ++ s)] := fun fuel =>
    scanMarkdown_no (hynm '[' (by decide) (by decide)) fuel
  have hescS : escapeOutsidePh ((p ++ phExisting 0 ++ s).length + 1)
      (p ++ phExisting 0 ++ s) = p ++ phExisting 0 ++ s :=
    escapeOutsidePh_ph (by decide) phSplitMatch_existing p hpsafe hssafe
      (Nat.lt_succ_self _)
  have hurlS : ∀ fuel left, urlPass fuel left (p ++ phExisting 0 ++ s) =
      p ++ phExisting 0 ++ s := fun fuel left =>
    urlPass_id_colon (hynm ':' (by decide) (by decide)) fuel left
  have hund : '_' ∉ p := hpnm '_' (by decide)
  have hrest1 : replaceFirst (phExisting 0) (anchorStr U T)
      (p ++ phExisting 0 ++ s) = p ++ anchorStr U T ++ s := by
    rw [show p ++ phExisting 0 ++ s =
        p ++ ('_' :: (str "_EXISTING_LINK_0__" ++ s)) by
      rw [(by decide : phExisting 0 = '_' :: str "_EXISTING_LINK_0__")]
      simp [List.cons_append, List.append_assoc],
      (by decide : phExisting 0 = '_' :: str "_EXISTING_LINK_0__")]
    exact replaceFirst_mid' hund
  have hrm1 : ∀ fuel, gsub (phRemoveMatch (str "__EXISTING_LINK_")) fuel
      (p ++ anchorStr U T ++ s) = p ++ anchorStr U T ++ s := fun fuel =>
    gsub_id_mem (phRemove_mem_und (by decide)) hxund fuel
  have hrm2 : ∀ fuel, gsub (phRemoveMatch (str "__BR_TAG_")) fuel
      (p ++ anchorStr U T ++ s) = p ++ anchorStr U T ++ s := fun fuel =>
    gsub_id_mem (phRemove_mem_und (by decide)) hxund fuel
  have hrm3 : ∀ fuel, gsub (phRemoveMatch (str "__BOLD_TAG_")) fuel
      (p ++ anchorStr U T ++ s) = p ++ anchorStr U T ++ s := fun fuel =>
    gsub_id_mem (phRemove_mem_und (by decide)) hxund fuel
  have hj1 : ∀ fuel, gsub mdJunk1Match fuel (p ++ anchorStr U T ++ s) =
      p ++ anchorStr U T ++ s := fun fuel =>
    gsub_id_mem (fun _ _ h => mdJunk1_mem h)
      (hxnm ']' (by decide) (by decide) (by decide)) fuel
  have hj2 : ∀ fuel, gsub mdJunk2Match fuel (p ++ anchorStr U T ++ s) =
      p ++ anchorStr U T ++ s := fun fuel =>
    gsub_id_mem (fun _ _ h => mdJunk2_mem h)
      (hxnm '[' (by decide) (by decide) (by decide)) fuel
  have hpd : '-' ∉ p := hpnm '-' (by decide)
  have hsd : '-' ∉ s := hsnm '-' (by decide)
  have hdashS : ∀ fuel, gsub dashEndMatch fuel (p ++ anchorStr U T ++ s) =
      p ++ anchorStr U T ++ s := fun fuel =>
    gsub_dashEnd_id (fun a r2 he =>
      anchor_dash_cond hpd hsd hUsafe (fun c hc => (hT c hc).toSafe) a r2 he) fuel
  have hbrcond : ∀ a r, p ++ anchorStr U T ++ s = a ++ '<' :: r →
      r.head? ≠ some 'b' := anchor_lt_cond hplt hslt hUlt hTlt
  have hh : ∀ r2, (p ++ anchorStr U T ++ s).dropWhile isWs ≠ '-' :: r2 := by
    intro r2 he
    rw [List.append_assoc, List.dropWhile_append] at he
    by_cases hcase : (p.dropWhile isWs).isEmpty = true
    · rw [if_pos hcase, anchorStr_eq, List.cons_append,
        List.dropWhile_cons_of_neg (by decide)] at he
      injection he with h1 _
      exact absurd h1 (by decide)
    · rw [if_neg hcase] at he
      rcases hd : p.dropWhile isWs with _ | ⟨d, ds⟩
      · rw [hd] at hcase
        simp at hcase
      · rw [hd, List.cons_append] at he
        injection he with h1 _
        subst h1
        exact absurd (hp '-' (dropWhile_cons_result hd)) (by decide)
  have hdlS : ∀ fuel, dashLinePass fuel (p ++ anchorStr U T ++ s) =
      p ++ anchorStr U T ++ s := fun fuel => dashLinePass_id hh hbrcond
  have hbrRunS : ∀ fuel, gsub brRunMatch fuel (p ++ anchorStr U T ++ s) =
      p ++ anchorStr U T ++ s := fun fuel => gsub_brRun_id hbrcond fuel
  have hpjS : ∀ fuel, gsub phJunkMatch fuel (p ++ anchorStr U T ++ s) =
      p ++ anchorStr U T ++ s := fun fuel =>
    gsub_id_mem (fun _ _ h => phJunk_mem h) hxund fuel
  have hwl1 : ∀ b p, wsLitWsMatch (str "target=\"_blank\"") b = some p →
      ∃ c ∈ b, lcChar c = '"' := fun b p h => wsLitWs_lc (by decide) h
  have hwl2 : ∀ b p, wsLitWsMatch (str "rel=\"noopener noreferrer\"") b =
      some p → ∃ c ∈ b, lcChar c = '"' := fun b p h => wsLitWs_lc (by decide) h
  have hwbS : ∀ fuel, gsub (wsLitWsMatch (str "target=\"_blank\"")) fuel
      (p ++ phValid 0 ++ s) = p ++ phValid 0 ++ s := fun fuel =>
    gsub_id_lc hwl1 (hzlc '"' (by decide) (by unfold LcFree; decide)) fuel
  have hwrS : ∀ fuel, gsub (wsLitWsMatch (str "rel=\"noopener noreferrer\""))
      fuel (p ++ phValid 0 ++ s) = p ++ phValid 0 ++ s := fun fuel =>
    gsub_id_lc hwl2 (hzlc '"' (by decide) (by unfold LcFree; decide)) fuel
  have hstyS : ∀ fuel, gsub styleMatch fuel (p ++ phValid 0 ++ s) =
      p ++ phValid 0 ++ s := fun fuel =>
    gsub_id_lc (fun _ _ h => styleMatch_mem h)
      (hzlc '"' (by decide) (by unfold LcFree; decide)) fuel
  have hvpS : ∀ fuel, gsub viewProductMatch fuel (p ++ phValid 0 ++ s) =
      p ++ phValid 0 ++ s := fun fuel =>
    gsub_id_mem (fun _ _ h => viewProduct_mem h)
      (hznm '"' (by decide) (by decide)) fuel
  have hvS : ∀ fuel, gsub viewMatch fuel (p ++ phValid 0 ++ s) =
      p ++ phValid 0 ++ s := fun fuel =>
    gsub_id_mem (fun _ _ h => viewMatch_mem h)
      (hznm '"' (by decide) (by decide)) fuel
  have hqgS : ∀ fuel left, gsubL quoteGtMatch fuel left (p ++ phValid 0 ++ s) =
      p ++ phValid 0 ++ s := fun fuel left =>
    gsubL_id_mem (fun _ _ _ h => quoteGt_mem h)
      (hznm '"' (by decide) (by decide)) fuel left
  have heaS : ∀ fuel, gsub emptyAMatch fuel (p ++ phValid 0 ++ s) =
      p ++ phValid 0 ++ s := fun fuel =>
    gsub_id_lc (fun _ _ h => emptyA_lc h)
      (hzlc '<' (by decide) (by unfold LcFree; decide)) fuel
  have hcapS : ∀ fuel, gsub closeAParenMatch fuel (p ++ phValid 0 ++ s) =
      p ++ phValid 0 ++ s := fun fuel =>
    gsub_id_mem (fun _ _ h => closeAParen_mem h)
      (hznm '<' (by decide) (by decide)) fuel
  have hpcaS : ∀ fuel, gsub parenCloseAMatch fuel (p ++ phValid 0 ++ s) =
      p ++ phValid 0 ++ s := fun fuel =>
    gsub_id_mem (fun _ _ h => parenCloseA_mem h)
      (hznm ')' (by decide) (by decide)) fuel
  have hrest2 : replaceFirst (phValid 0) (anchorStr U T)
      (p ++ phValid 0 ++ s) = p ++ anchorStr U T ++ s := by
    rw [show p ++ phValid 0 ++ s =
        p ++ ('_' :: (str "_VALID_TAG_0__" ++ s)) by
      rw [(by decide : phValid 0 = '_' :: str "_VALID_TAG_0__")]
      simp [List.cons_append, List.append_assoc],
      (by decide : phValid 0 = '_' :: str "_VALID_TAG_0__")]
    exact replaceFirst_mid' hund
  have hnl : '\n' ∉ p ++ anchorStr U T ++ s :=
    hxnm '\n' (by decide) (by decide) (by decide)
  have h0 : ¬ (p ++ anchorStr U T ++ s = []) := by
    intro he
    rcases List.append_eq_nil.mp he with ⟨h1, _⟩
    rcases List.append_eq_nil.mp h1 with ⟨_, h2⟩
    rw [anchorStr_eq] at h2
    cases h2
  rw [convertLinksToHTML, if_neg h0]
  simp only [hscan, segAnchors_single, List.length_singleton,
    anchorAList_single, renderAnchorSegs_single, hbrS, List.enum_nil,
    List.map_nil, hboldS, hstrongS, hmdS, markdownAList_lit,
    renderAnchorSegs_lit, hescS, hurlS, restoreAll_nil, restoreAll_pair,
    hrest1, hrm1, hj1, hj2, hrm2, hrm3, hdashS, hdlS, hbrRunS, hpjS,
    segAnchors_lit, hwbS, hwrS, hstyS, hvpS, hvS, hqgS, heaS, hcapS, hpcaS,
    hrest2]
  exact replaceAllLit_id hnl

/-- Claim C1 (counterexample): an anchor wrapped in markdown bold is
destroyed. On `**<a href="/products/power-tools">gtech</a>**` the bold pass
swallows the anchor placeholder into a `__BOLD_TAG_0__` token whose body is
cleaned away, so the output no longer contains the anchor at all. -/
theorem C1_anchor_destroyed_in_bold :
    containsSub
      (convertLinksToHTML
        (str "**" ++ anchorStr (str "/products/power-tools") (str "gtech") ++
          str "**"))
      (anchorStr (str "/products/power-tools") (str "gtech")) = false := by
  decide

/-- Witness for C1's amended theorem at a concrete plain context and URL. -/
theorem C1_anchor_preserved_witness :
    (∀ c ∈ str "see ", PlainCh c) ∧ (∀ c ∈ str " now", PlainCh c) ∧
    (∀ c ∈ str "/products/power-tools", UrlCh c) ∧
    (∀ c ∈ str "cordless tools", PlainCh c) ∧
    convertLinksToHTML (str "see " ++
        anchorStr (str "/products/power-tools") (str "cordless tools") ++
        str " now") =
      str "see " ++
        anchorStr (str "/products/power-tools") (str "cordless tools") ++
        str " now" :=
  ⟨by decide, by decide, by decide, by decide,
    C1_anchor_preserved (by decide) (by decide) (by decide) (by decide)⟩

/-! ## Claim C4: markdown links and trailing punctuation -/

/-- The attribute block of the markdown replacement HTML, from the opening
quote that closes the `href` value up to (excluding) the final `">` of the
opening tag. -/
def mdAttrs : Str :=
  str "\" target=\"_blank\" rel=\"noopener noreferrer\" style=\"color: #007bff; text-decoration: underline;"

theorem dropWhile_eq_self_of_all {q : Char → Bool} {l : Str}
    (h : ∀ c ∈ l, q c = false) : l.dropWhile q = l := by
  cases l with
  | nil => rfl
  | cons c t =>
    exact List.dropWhile_cons_of_neg (by simp [h c (List.mem_cons_self _ _)])

theorem dropWhile_eq_nil_of_all {q : Char → Bool} :
    ∀ {l : Str}, (∀ c ∈ l, q c = true) → l.dropWhile q = []
  | [], _ => rfl
  | c :: t, h => by
    rw [List.dropWhile_cons_of_pos (h c (List.mem_cons_self _ _))]
    exact dropWhile_eq_nil_of_all (fun d hd => h d (List.mem_cons_of_mem _ hd))

theorem jsTrim_id {s : Str} (h : ∀ c ∈ s, isWs c = false) : jsTrim s = s := by
  rw [jsTrim, dropWhile_eq_self_of_all h,
    dropWhile_eq_self_of_all (fun c hc => h c (List.mem_reverse.mp hc)),
    List.reverse_reverse]

theorem stripTrailPunct_append {V P : Str} (hV0 : V ≠ [])
    (hv : ∀ c, V.getLast? = some c → isTrailPunct c = false)
    (hP : ∀ c ∈ P, isTrailPunct c = true) : stripTrailPunct (V ++ P) = V := by
  rw [stripTrailPunct, List.reverse_append, List.dropWhile_append,
    dropWhile_eq_nil_of_all (fun c hc => hP c (List.mem_reverse.mp hc))]
  simp only [List.isEmpty_nil, if_true]
  rcases hrev : V.reverse with _ | ⟨c, t⟩
  · exact absurd (List.reverse_eq_nil_iff.mp hrev) hV0
  · have hc : V.getLast? = some c := by
      rw [← List.head?_reverse, hrev]
      rfl
    rw [List.dropWhile_cons_of_neg (by simp [hv c hc]), ← hrev,
      List.reverse_reverse]

theorem punct_lcChar {c : Char} (h : isTrailPunct c = true) : lcChar c = c := by
  rw [isTrailPunct] at h
  simp only [Bool.or_eq_true, decide_eq_true_eq] at h
  rcases h with ((((((rfl | rfl) | rfl) | rfl) | rfl) | rfl) | rfl) | rfl <;>
    decide

theorem punct_not_ws {c : Char} (h : isTrailPunct c = true) : isWs c = false := by
  rw [isTrailPunct] at h
  simp only [Bool.or_eq_true, decide_eq_true_eq] at h
  rcases h with ((((((rfl | rfl) | rfl) | rfl) | rfl) | rfl) | rfl) | rfl <;>
    decide

theorem lcFree_punct {s : Str} {d : Char} (hs : ∀ c ∈ s, isTrailPunct c = true)
    (hd : isTrailPunct d = false) : LcFree d s := by
  intro c hc
  rw [punct_lcChar (hs c hc)]
  intro e
  subst e
  exact absurd ((hs c hc).symm.trans hd) (by decide)

theorem notMem_punct {s : Str} {d : Char} (hs : ∀ c ∈ s, isTrailPunct c = true)
    (hd : isTrailPunct d = false) : d ∉ s :=
  fun hm => absurd ((hs d hm).symm.trans hd) (by decide)

theorem urlCh_not_ws {c : Char} (h : UrlCh c) : isWs c = false := by
  have h1 : c ≠ ' ' := fun e => absurd (e ▸ h) (by decide)
  have h2 : c ≠ '\t' := fun e => absurd (e ▸ h) (by decide)
  have h3 : c ≠ '\n' := fun e => absurd (e ▸ h) (by decide)
  have h4 : c ≠ '\r' := fun e => absurd (e ▸ h) (by decide)
  have h5 : c ≠ '\x0c' := fun e => absurd (e ▸ h) (by decide)
  have h6 : c ≠ '\x0b' := fun e => absurd (e ▸ h) (by decide)
  simp [isWs, h1, h2, h3, h4, h5, h6]

theorem escapeHtml_append (a b : Str) :
    escapeHtml (a ++ b) = escapeHtml a ++ escapeHtml b := by
  rw [escapeHtml, escapeHtml, escapeHtml, List.flatMap_append]

theorem mdHtml_eq_anchor {V : Str} (hws : ∀ c ∈ V, isWs c = false)
    (hesc : escapeHtml V = V) : mdHtml V = anchorStr (V ++ mdAttrs) V := by
  simp only [mdHtml]
  rw [jsTrim_id hws, hesc, anchorStr,
    (by decide : (str "\" target=\"_blank\" rel=\"noopener noreferrer\" style=\"color: #007bff; text-decoration: underline;\">" : Str) = mdAttrs ++ str "\">")]
  simp [List.append_assoc]

theorem mdAnchor_flat (V : Str) :
    anchorStr (V ++ mdAttrs) V =
      ['<', 'a', ' ', 'h', 'r', 'e', 'f', '=', '"'] ++
        (V ++ (mdAttrs ++ (['"', '>'] ++ (V ++ ['<', '/', 'a', '>'])))) := by
  rw [anchorStr_eq]
  simp [List.cons_append, List.append_assoc]

theorem goodTail_nolt_append {u2 rest : Str} (hu : ∀ c ∈ u2, c ≠ '<')
    (hrest : GoodTail rest) : GoodTail (u2 ++ rest) := by
  rw [GoodTail, List.dropWhile_append]
  by_cases he : (u2.dropWhile isWs).isEmpty = true
  · rw [if_pos he]
    exact hrest
  · rw [if_neg he]
    rcases hd : u2.dropWhile isWs with _ | ⟨d, ds⟩
    · rw [hd] at he
      simp at he
    · have hdu : d ∈ u2 := (List.dropWhile_sublist _).subset
        (hd ▸ List.mem_cons_self _ _)
      rw [List.cons_append]
      rintro (h | h)
      · exact hu d hdu (brPrefix_head h)
      · cases h

theorem no_pair_pref {s : Str} {c₀ c₁ : Char}
    (h : ∀ a r, s = a ++ c₀ :: r → r.head? ≠ some c₁) :
    ∀ {pr : Str} (b : Str), b <:+ s → ¬ ((c₀ :: c₁ :: pr).isPrefixOf b = true) := by
  intro pr b hb hp
  rcases (List.isPrefixOf_iff_prefix.mp hp) with ⟨r, hr⟩
  rcases hb with ⟨t, ht⟩
  have hs : s = t ++ c₀ :: (c₁ :: (pr ++ r)) := by
    rw [← ht, ← hr]
    rfl
  exact h t _ hs rfl

theorem phRemove_isPrefix {tg b : Str} {p : Str × Str}
    (h : phRemoveMatch tg b = some p) : tg.isPrefixOf b = true := by
  by_cases hp : tg.isPrefixOf b = true
  · exact hp
  · rw [phRemoveMatch, phMatchTag, if_neg hp] at h
    simp at h

theorem phJunk_isPrefix {b : Str} {p : Str × Str}
    (h : phJunkMatch b = some p) : (str "__").isPrefixOf b = true := by
  by_cases hp : (str "__").isPrefixOf b = true
  · exact hp
  · rw [phJunkMatch, if_neg hp] at h
    simp at h

theorem gsub_id_pair {m : Str → Option (Str × Str)} {c₀ c₁ : Char} {pr : Str}
    (hm : ∀ b p, m b = some p → ((c₀ :: c₁ :: pr).isPrefixOf b = true)) {s : Str}
    (hs : ∀ a r, s = a ++ c₀ :: r → r.head? ≠ some c₁) (fuel : Nat) :
    gsub m fuel s = s := by
  refine gsub_id (fun b hb => ?_) fuel
  cases hmb : m b with
  | none => rfl
  | some p => exact absurd (hm b p hmb) (no_pair_pref hs b hb)

theorem mdAnchor_und_cond {V : Str} (hV : '_' ∉ V) :
    ∀ a r, anchorStr (V ++ mdAttrs) V = a ++ '_' :: r → r.head? ≠ some '_' := by
  intro a r heq
  rw [mdAnchor_flat] at heq
  rcases split_append heq with ⟨_, _, hx, _⟩ | ⟨y₁, y₂, hy, hr⟩
  · exact absurd hx (no_split_of_notMem (by decide))
  subst hr
  rcases split_append hy with ⟨x₁, x₂, hx, hb⟩ | ⟨z₁, z₂, hz, hrz⟩
  · exact absurd hx (no_split_of_notMem hV)
  subst hrz
  rcases split_append hz with ⟨x₁, x₂, hx, hb⟩ | ⟨w₁, w₂, hw, hrw⟩
  · subst hb
    have hmem := mem_tailsAfter_of_split hx
    rw [(by decide : tailsAfter '_' mdAttrs =
        [str "blank\" rel=\"noopener noreferrer\" style=\"color: #007bff; text-decoration: underline;"]),
      List.mem_singleton] at hmem
    subst hmem
    rw [(by decide : (str "blank\" rel=\"noopener noreferrer\" style=\"color: #007bff; text-decoration: underline;" : Str) =
        'b' :: str "lank\" rel=\"noopener noreferrer\" style=\"color: #007bff; text-decoration: underline;"),
      List.cons_append]
    simp
  subst hrw
  rcases split_append hw with ⟨x₁, x₂, hx, hb⟩ | ⟨v₁, v₂, hv, hrv⟩
  · exact absurd hx (no_split_of_notMem (by decide))
  subst hrv
  rcases split_append hv with ⟨x₁, x₂, hx, hb⟩ | ⟨q₁, q₂, hq, hrq⟩
  · exact absurd hx (no_split_of_notMem hV)
  · exact absurd hq (no_split_of_notMem (by decide))

theorem mdAnchor_dash_cond {V : Str} (hVlt : '<' ∉ V) :
    ∀ a r2, anchorStr (V ++ mdAttrs) V = a ++ '-' :: r2 → GoodTail r2 := by
  intro a r2 heq
  rw [mdAnchor_flat] at heq
  rcases split_append heq with ⟨_, _, hx, _⟩ | ⟨y₁, y₂, hy, hr⟩
  · exact absurd hx (no_split_of_notMem (by decide))
  subst hr
  rcases split_append hy with ⟨x₁, x₂, hx, hb⟩ | ⟨z₁, z₂, hz, hrz⟩
  · subst hb
    refine goodTail_nolt_append
      (fun d hd e => hVlt (e ▸ mem_of_left_split hx d hd)) ?_
    rw [(by decide : mdAttrs =
        '"' :: str " target=\"_blank\" rel=\"noopener noreferrer\" style=\"color: #007bff; text-decoration: underline;"),
      List.cons_append]
    exact goodTail_head (by decide) (by decide)
  subst hrz
  rcases split_append hz with ⟨x₁, x₂, hx, hb⟩ | ⟨w₁, w₂, hw, hrw⟩
  · subst hb
    have hmem := mem_tailsAfter_of_split hx
    rw [(by decide : tailsAfter '-' mdAttrs = [str "decoration: underline;"]),
      List.mem_singleton] at hmem
    subst hmem
    rw [(by decide : (str "decoration: underline;" : Str) =
        'd' :: str "ecoration: underline;"), List.cons_append]
    exact goodTail_head (by decide) (by decide)
  subst hrw
  rcases split_append hw with ⟨x₁, x₂, hx, hb⟩ | ⟨v₁, v₂, hv, hrv⟩
  · exact absurd hx (no_split_of_notMem (by decide))
  subst hrv
  rcases split_append hv with ⟨x₁, x₂, hx, hb⟩ | ⟨q₁, q₂, hq, hrq⟩
  · subst hb
    refine goodTail_nolt_append
      (fun d hd e => hVlt (e ▸ mem_of_left_split hx d hd)) ?_
    exact goodTail_close
  · exact absurd hq (no_split_of_notMem (by decide))

theorem mdAnchor_lt_cond {V : Str} (hVlt : '<' ∉ V) :
    ∀ a r, anchorStr (V ++ mdAttrs) V = a ++ '<' :: r → r.head? ≠ some 'b' := by
  intro a r he
  have hU : '<' ∉ V ++ mdAttrs := by
    intro hm
    rcases List.mem_append.mp hm with hm | hm
    · exact hVlt hm
    · exact absurd hm (by decide)
  exact anchor_lt_cond (p := ([] : Str)) (s := ([] : Str)) (by simp) (by simp)
    hU hVlt a r (by simpa using he)

theorem markdownAList_single (p A s : Str) :
    markdownAList [.inl p, .inr A, .inl s] = [(phMarkdown 0, mdHtml A)] := rfl

theorem replaceFirst_self {c₀ : Char} {pr repl : Str} :
    replaceFirst (c₀ :: pr) repl (c₀ :: pr) = repl := by
  have h : splitFirst (c₀ :: pr) ((c₀ :: pr) ++ ([] : Str)) =
      some ([], ([] : Str)) := splitFirst_self_append
  rw [List.append_nil] at h
  rw [replaceFirst, h]
  simp

theorem scanMarkdown_pos {T B V : Str} (hT : ']' ∉ T) (hB : ')' ∉ B)
    (hclean : stripTrailPunct (jsTrim B) = V) (hhttp : startsWithHttp V = true)
    {fuel : Nat} (hf : 1 ≤ fuel) :
    scanMarkdown fuel (str "[" ++ T ++ str "](" ++ B ++ str ")") =
      [.inl [], .inr V, .inl []] := by
  cases fuel with
  | zero => omega
  | succ n =>
    have h1 : splitFirst (str "[") (str "[" ++ T ++ str "](" ++ B ++ str ")") =
        some ([], T ++ (']' :: ('(' :: (B ++ (')' :: []))))) := by
      rw [show str "[" ++ T ++ str "](" ++ B ++ str ")" =
          str "[" ++ (T ++ (']' :: ('(' :: (B ++ (')' :: []))))) by
        rw [(by decide : str "](" = [']', '(']), (by decide : str ")" = [')'])]
        simp [List.cons_append, List.append_assoc],
        (by decide : str "[" = ['['])]
      exact splitFirst_self_append
    have h2 : splitFirst (str "]") (T ++ (']' :: ('(' :: (B ++ (')' :: []))))) =
        some (T, '(' :: (B ++ (')' :: []))) := by
      rw [(by decide : str "]" = [']'])]
      exact splitFirst_one hT
    have h3 : splitFirst (str ")") (B ++ (')' :: [])) = some (B, []) := by
      rw [(by decide : str ")" = [')'])]
      exact splitFirst_one hB
    rw [scanMarkdown]
    simp only [h1, h2, h3, hclean, hhttp, if_true]
    rw [scanMarkdown_no (by simp) n]

/-- Claim C4 (amended): a markdown link whose URL part carries trailing
punctuation is converted to an anchor whose href and text are the stripped
URL, and the stripped punctuation is discarded entirely: the whole output is
exactly the markdown replacement HTML, with nothing after the `</a>`. -/
theorem C4_markdown_punct_discarded {T W P : Str}
    (hT : ∀ c ∈ T, PlainCh c) (hW : ∀ c ∈ W, UrlCh c)
    (hWl : ∀ c, W.getLast? = some c → isTrailPunct c = false)
    (hP : ∀ c ∈ P, isTrailPunct c = true) (hPp : ')' ∉ P) :
    convertLinksToHTML
        (str "[" ++ T ++ str "](" ++ (str "https://" ++ W) ++ P ++ str ")") =
      mdHtml (str "https://" ++ W) := by
  have hxnm : ∀ d : Char, d ∉ T → ¬ UrlCh d → isTrailPunct d = false →
      d ∉ (['[', ']', '(', ')', 'h', 't', 'p', 's', ':', '/'] : Str) →
      d ∉ str "[" ++ T ++ str "](" ++ (str "https://" ++ W) ++ P ++ str ")" := by
    intro d h1 h2 h3 h4 hm
    simp only [List.mem_append] at hm
    rcases hm with ((((hm | hm) | hm) | (hm | hm)) | hm) | hm
    · exact h4 ((by decide : ∀ c ∈ str "[",
        c ∈ (['[', ']', '(', ')', 'h', 't', 'p', 's', ':', '/'] : Str)) d hm)
    · exact h1 hm
    · exact h4 ((by decide : ∀ c ∈ str "](",
        c ∈ (['[', ']', '(', ')', 'h', 't', 'p', 's', ':', '/'] : Str)) d hm)
    · exact h4 ((by decide : ∀ c ∈ str "https://",
        c ∈ (['[', ']', '(', ')', 'h', 't', 'p', 's', ':', '/'] : Str)) d hm)
    · exact h2 (hW d hm)
    · exact absurd ((hP d hm).symm.trans h3) (by decide)
    · exact h4 ((by decide : ∀ c ∈ str ")",
        c ∈ (['[', ']', '(', ')', 'h', 't', 'p', 's', ':', '/'] : Str)) d hm)
  have hlt_x : '<' ∉ str "[" ++ T ++ str "](" ++
      (str "https://" ++ W) ++ P ++ str ")" :=
    hxnm '<' (notMem_of_plain hT (by decide)) (by decide) (by decide) (by decide)
  have hlc_x : LcFree '<' (str "[" ++ T ++ str "](" ++
      (str "https://" ++ W) ++ P ++ str ")") :=
    lcFree_append (lcFree_append (lcFree_append (lcFree_append (lcFree_append
      (by unfold LcFree; decide) (lcFree_plain hT (by decide)))
      (by unfold LcFree; decide))
      (lcFree_append (by unfold LcFree; decide)
        (lcFree_of_safe (fun c hc => (hW c hc).safeCh) (by decide))))
      (lcFree_punct hP (by decide))) (by unfold LcFree; decide)
  have hstar_x : '*' ∉ str "[" ++ T ++ str "](" ++
      (str "https://" ++ W) ++ P ++ str ")" :=
    hxnm '*' (notMem_of_plain hT (by decide)) (by decide) (by decide) (by decide)
  have h0 : ¬ (str "[" ++ T ++ str "](" ++
      (str "https://" ++ W) ++ P ++ str ")" = []) := by
    intro he
    rcases List.append_eq_nil.mp he with ⟨_, h2⟩
    exact absurd h2 (by decide)
  have hmdS : scanMarkdown ((str "[" ++ T ++ str "](" ++
        (str "https://" ++ W) ++ P ++ str ")").length + 1)
      (str "[" ++ T ++ str "](" ++ (str "https://" ++ W) ++ P ++ str ")") =
      [.inl [], .inr (str "https://" ++ W), .inl []] := by
    have hws_B : ∀ c ∈ (str "https://" ++ W) ++ P, isWs c = false := by
      intro c hc
      rcases List.mem_append.mp hc with hc | hc
      · rcases List.mem_append.mp hc with hc | hc
        · exact (by decide : ∀ c ∈ str "https://", isWs c = false) c hc
        · exact urlCh_not_ws (hW c hc)
      · exact punct_not_ws (hP c hc)
    have hclean : stripTrailPunct (jsTrim ((str "https://" ++ W) ++ P)) =
        str "https://" ++ W := by
      rw [jsTrim_id hws_B]
      refine stripTrailPunct_append ?_ ?_ hP
      · intro he
        rcases List.append_eq_nil.mp he with ⟨h1, _⟩
        exact absurd h1 (by decide)
      · intro c hc
        cases hW0 : W with
        | nil =>
          rw [hW0, List.append_nil,
            (by decide : (str "https://").getLast? = some '/')] at hc
          simp at hc
          subst hc
          decide
        | cons w0 wt =>
          rw [hW0, List.getLast?_append_cons] at hc
          exact hWl c (by rw [hW0]; exact hc)
    have hBp : ')' ∉ (str "https://" ++ W) ++ P := by
      intro hm
      rcases List.mem_append.mp hm with hm | hm
      · rcases List.mem_append.mp hm with hm | hm
        · revert hm
          decide
        · exact absurd (hW _ hm) (by decide)
      · exact hPp hm
    have hhttp : startsWithHttp (str "https://" ++ W) = true := by
      rw [startsWithHttp]
      have hpre : (str "https://").isPrefixOf (str "https://" ++ W) = true := by
        rw [List.isPrefixOf_iff_prefix]
        exact List.prefix_append _ _
      rw [hpre, Bool.or_true]
    rw [show str "[" ++ T ++ str "](" ++ (str "https://" ++ W) ++ P ++ str ")" =
        str "[" ++ T ++ str "](" ++ ((str "https://" ++ W) ++ P) ++ str ")" by
      simp [List.append_assoc]]
    exact scanMarkdown_pos (notMem_of_plain hT (by decide)) hBp hclean hhttp
      (by omega)
  have hesc6 : escapeOutsidePh ((phMarkdown 0).length + 1) (phMarkdown 0) =
      phMarkdown 0 := by decide
  have hurl7 : urlPass ((phMarkdown 0).length + 1) [] (phMarkdown 0) =
      phMarkdown 0 := by decide
  have hres8 : replaceFirst (phMarkdown 0) (mdHtml (str "https://" ++ W))
      (phMarkdown 0) = mdHtml (str "https://" ++ W) := by
    rw [(by decide : phMarkdown 0 = '_' :: str "_MARKDOWN_LINK_0__")]
    exact replaceFirst_self
  have hVund : '_' ∉ str "https://" ++ W := by
    intro hm
    rcases List.mem_append.mp hm with hm | hm
    · revert hm
      decide
    · exact absurd (hW _ hm) (by decide)
  have hVlt : '<' ∉ str "https://" ++ W := by
    intro hm
    rcases List.mem_append.mp hm with hm | hm
    · revert hm
      decide
    · exact absurd (hW _ hm) (by decide)
  have hVgt : '>' ∉ str "https://" ++ W := by
    intro hm
    rcases List.mem_append.mp hm with hm | hm
    · revert hm
      decide
    · exact absurd (hW _ hm) (by decide)
  have hM : mdHtml (str "https://" ++ W) =
      anchorStr ((str "https://" ++ W) ++ mdAttrs) (str "https://" ++ W) := by
    refine mdHtml_eq_anchor ?_ ?_
    · intro c hc
      rcases List.mem_append.mp hc with hc | hc
      · exact (by decide : ∀ c ∈ str "https://", isWs c = false) c hc
      · exact urlCh_not_ws (hW c hc)
    · rw [escapeHtml_append, (by decide : escapeHtml (str "https://") =
        str "https://"), escapeHtml_safe (fun c hc => (hW c hc).safeCh)]
  have hundM : ∀ a r, mdHtml (str "https://" ++ W) = a ++ '_' :: r →
      r.head? ≠ some '_' :=
    fun a r he => mdAnchor_und_cond hVund a r (hM.symm.trans he)
  have hdashM : ∀ a r2, mdHtml (str "https://" ++ W) = a ++ '-' :: r2 →
      GoodTail r2 :=
    fun a r2 he => mdAnchor_dash_cond hVlt a r2 (hM.symm.trans he)
  have hltM : ∀ a r, mdHtml (str "https://" ++ W) = a ++ '<' :: r →
      r.head? ≠ some 'b' :=
    fun a r he => mdAnchor_lt_cond hVlt a r (hM.symm.trans he)
  have hMnm : ∀ d : Char, d ∉ str "https://" ++ W → d ∉ mdAttrs →
      d ∉ (['<', 'a', ' ', 'h', 'r', 'e', 'f', '=', '"', '>', '/'] : Str) →
      d ∉ mdHtml (str "https://" ++ W) := by
    intro d h1 h2 h3 hm
    rw [hM] at hm
    refine notMem_anchorStr h3 ?_ h1 hm
    intro hmm
    rcases List.mem_append.mp hmm with hmm | hmm
    · exact h1 hmm
    · exact h2 hmm
  have hrm1M : ∀ fuel, gsub (phRemoveMatch (str "__EXISTING_LINK_")) fuel
      (mdHtml (str "https://" ++ W)) = mdHtml (str "https://" ++ W) :=
    fun fuel => gsub_id_pair (fun b p h => by
      have := phRemove_isPrefix h
      rwa [(by decide : str "__EXISTING_LINK_" =
        '_' :: '_' :: str "EXISTING_LINK_")] at this) hundM fuel
  have hrm2M : ∀ fuel, gsub (phRemoveMatch (str "__BR_TAG_")) fuel
      (mdHtml (str "https://" ++ W)) = mdHtml (str "https://" ++ W) :=
    fun fuel => gsub_id_pair (fun b p h => by
      have := phRemove_isPrefix h
      rwa [(by decide : str "__BR_TAG_" = '_' :: '_' :: str "BR_TAG_")] at this)
      hundM fuel
  have hrm3M : ∀ fuel, gsub (phRemoveMatch (str "__BOLD_TAG_")) fuel
      (mdHtml (str "https://" ++ W)) = mdHtml (str "https://" ++ W) :=
    fun fuel => gsub_id_pair (fun b p h => by
      have := phRemove_isPrefix h
      rwa [(by decide : str "__BOLD_TAG_" = '_' :: '_' :: str "BOLD_TAG_")]
        at this) hundM fuel
  have hjunkM : ∀ fuel, gsub phJunkMatch fuel (mdHtml (str "https://" ++ W)) =
      mdHtml (str "https://" ++ W) :=
    fun fuel => gsub_id_pair (fun b p h => by
      have := phJunk_isPrefix h
      rwa [(by decide : str "__" = '_' :: '_' :: ([] : Str))] at this)
      hundM fuel
  have hj1M : ∀ fuel, gsub mdJunk1Match fuel (mdHtml (str "https://" ++ W)) =
      mdHtml (str "https://" ++ W) := fun fuel =>
    gsub_id_mem (fun _ _ h => mdJunk1_mem h)
      (hMnm ']' (by
        intro hm
        rcases List.mem_append.mp hm with hm | hm
        · revert hm; decide
        · exact absurd (hW _ hm) (by decide)) (by decide) (by decide)) fuel
  have hj2M : ∀ fuel, gsub mdJunk2Match fuel (mdHtml (str "https://" ++ W)) =
      mdHtml (str "https://" ++ W) := fun fuel =>
    gsub_id_mem (fun _ _ h => mdJunk2_mem h)
      (hMnm '[' (by
        intro hm
        rcases List.mem_append.mp hm with hm | hm
        · revert hm; decide
        · exact absurd (hW _ hm) (by decide)) (by decide) (by decide)) fuel
  have hdashSM : ∀ fuel, gsub dashEndMatch fuel (mdHtml (str "https://" ++ W)) =
      mdHtml (str "https://" ++ W) :=
    fun fuel => gsub_dashEnd_id (fun a r2 he => hdashM a r2 he) fuel
  have hhM : ∀ r2, (mdHtml (str "https://" ++ W)).dropWhile isWs ≠ '-' :: r2 := by
    intro r2 he
    rw [hM, anchorStr_eq, List.dropWhile_cons_of_neg (by decide)] at he
    injection he with h1 _
    exact absurd h1 (by decide)
  have hdlM : ∀ fuel, dashLinePass fuel (mdHtml (str "https://" ++ W)) =
      mdHtml (str "https://" ++ W) :=
    fun fuel => dashLinePass_id hhM hltM
  have hbrRunM : ∀ fuel, gsub brRunMatch fuel (mdHtml (str "https://" ++ W)) =
      mdHtml (str "https://" ++ W) :=
    fun fuel => gsub_brRun_id hltM fuel
  have hscanV : scanAnchors ((mdHtml (str "https://" ++ W)).length + 1)
      (mdHtml (str "https://" ++ W)) =
      [.inl [], .inr (anchorStr ((str "https://" ++ W) ++ mdAttrs)
        (str "https://" ++ W)), .inl []] := by
    rw [hM]
    have hUgt : '>' ∉ (str "https://" ++ W) ++ mdAttrs := by
      intro hm
      rcases List.mem_append.mp hm with hm | hm
      · exact hVgt hm
      · exact absurd hm (by decide)
    have := scanAnchors_anchor (p := ([] : Str)) (s := ([] : Str))
      (U := (str "https://" ++ W) ++ mdAttrs) (T := str "https://" ++ W)
      (by simp) hUgt hVlt (by simp)
      (show 1 ≤ (anchorStr ((str "https://" ++ W) ++ mdAttrs)
        (str "https://" ++ W)).length + 1 by omega)
    simpa using this
  have h22 : gsub (wsLitWsMatch (str "target=\"_blank\""))
      ((phValid 0).length + 1) (phValid 0) = phValid 0 := by decide
  have h23 : gsub (wsLitWsMatch (str "rel=\"noopener noreferrer\""))
      ((phValid 0).length + 1) (phValid 0) = phValid 0 := by decide
  have h24 : gsub styleMatch ((phValid 0).length + 1) (phValid 0) =
      phValid 0 := by decide
  have h25 : gsub viewProductMatch ((phValid 0).length + 1) (phValid 0) =
      phValid 0 := by decide
  have h26 : gsub viewMatch ((phValid 0).length + 1) (phValid 0) =
      phValid 0 := by decide
  have h27 : gsubL quoteGtMatch ((phValid 0).length + 1) [] (phValid 0) =
      phValid 0 := by decide
  have h28 : gsub emptyAMatch ((phValid 0).length + 1) (phValid 0) =
      phValid 0 := by decide
  have h29 : gsub closeAParenMatch ((phValid 0).length + 1) (phValid 0) =
      phValid 0 := by decide
  have h30 : gsub parenCloseAMatch ((phValid 0).length + 1) (phValid 0) =
      phValid 0 := by decide
  have hres31 : replaceFirst (phValid 0)
      (anchorStr ((str "https://" ++ W) ++ mdAttrs) (str "https://" ++ W))
      (phValid 0) =
      anchorStr ((str "https://" ++ W) ++ mdAttrs) (str "https://" ++ W) := by
    rw [(by decide : phValid 0 = '_' :: str "_VALID_TAG_0__")]
    exact replaceFirst_self
  have hnlA : '\n' ∉ anchorStr ((str "https://" ++ W) ++ mdAttrs)
      (str "https://" ++ W) := by
    refine notMem_anchorStr (by decide) ?_ ?_
    · intro hm
      rcases List.mem_append.mp hm with hm | hm
      · rcases List.mem_append.mp hm with hm | hm
        · revert hm; decide
        · exact absurd (hW _ hm) (by decide)
      · exact absurd hm (by decide)
    · intro hm
      rcases List.mem_append.mp hm with hm | hm
      · revert hm; decide
      · exact absurd (hW _ hm) (by decide)
  rw [convertLinksToHTML, if_neg h0]
  simp only [scanAnchors_no hlt_x, segAnchors_lit, anchorAList_lit,
    renderAnchorSegs_lit,
    gsubCap_id_lc (fun _ _ h => brMatch_lc h) hlc_x, List.enum_nil,
    List.map_nil,
    gsub_id_mem (fun _ _ h => boldMatch_mem h) hstar_x,
    gsubCap_id_lc (fun _ _ h => strongMatch_lc h) hlc_x,
    hmdS, markdownAList_single, segAnchors_single, List.length_singleton,
    renderAnchorSegs_single, List.nil_append, List.append_nil,
    hesc6, hurl7, restoreAll_pair, restoreAll_nil, hres8,
    hrm1M, hj1M, hj2M, hrm2M, hrm3M, hdashSM, hdlM, hbrRunM, hjunkM,
    hscanV, anchorAList_single, h22, h23, h24, h25, h26, h27, h28, h29, h30,
    hres31]
  have hfin : replaceAllLit (str "\n") (str "<br>")
      (anchorStr ((str "https://" ++ W) ++ mdAttrs) (str "https://" ++ W)) =
      anchorStr ((str "https://" ++ W) ++ mdAttrs) (str "https://" ++ W) :=
    replaceAllLit_id hnlA
  rw [hfin]
  exact hM.symm

set_option maxRecDepth 10000 in
/-- Claim C4 (counterexample): on `[see](https://x.test/a.)` the trailing
period captured into the URL part is stripped from the href but NOT
preserved after the `</a>` tag: the output is exactly the markdown
replacement HTML and contains no `</a>.`. -/
theorem C4_punct_not_preserved :
    convertLinksToHTML (str "[see](https://x.test/a.)") =
      mdHtml (str "https://x.test/a") ∧
    containsSub (convertLinksToHTML (str "[see](https://x.test/a.)"))
      (str "</a>.") = false := by
  constructor
  · decide
  · decide

/-- Witness for C4's amended theorem at concrete text, URL and punctuation. -/
theorem C4_markdown_punct_discarded_witness :
    (∀ c ∈ str "see", PlainCh c) ∧ (∀ c ∈ str "x.test/a", UrlCh c) ∧
    (∀ c ∈ str ".", isTrailPunct c = true) ∧ ')' ∉ str "." ∧
    convertLinksToHTML (str "[" ++ str "see" ++ str "](" ++
        (str "https://" ++ str "x.test/a") ++ str "." ++ str ")") =
      mdHtml (str "https://" ++ str "x.test/a") :=
  ⟨by decide, by decide, by decide, by decide,
    C4_markdown_punct_discarded (by decide) (by decide)
      (fun c hc => by
        rw [(by decide : (str "x.test/a").getLast? = some 'a')] at hc
        simp at hc
        subst hc
        decide)
      (by decide) (by decide)⟩

/-! ## Claim C3: the formatter failure policy (chatbot.ts lines 1256-1552)

`formatResponseWithLinks` wraps its whole body in a `try` whose `catch`
returns `response.replace(/\n/g, '<br/>')` (lines 1545-1549), but each
per-product step (lines 1272-1318) and each per-category step (lines
1329-1376) has its own inner `try/catch` that logs and continues.  To reason
about the counterfactual "step X throws", the embedding is parameterised by
the step computations: a step is `Str → Option Str`, `none` modelling a
thrown exception. -/

/-- `GTECH_BASE_URL` (chatbot.ts line 447). -/
def GTECH_BASE_URL : Str := str "https://www.gtech.co.uk"

/-- Case-insensitive literal global replace, the shape of the
`formatted.replace(/LIT/gi, repl)` steps (chatbot.ts lines 1380-1382). -/
def ciReplaceStep (lit repl : Str) (s : Str) : Str :=
  gsub (fun t => if isPrefixOfCI lit t then some (repl, t.drop lit.length)
    else none) (s.length + 1) s

/-- The `/Gtech website/gi` replacement (chatbot.ts line 1380); note the
replacement text is the fixed template string, not the matched casing. -/
def gtechWebsiteStep (s : Str) : Str :=
  ciReplaceStep (str "Gtech website")
    (str "<a href=\"" ++ GTECH_BASE_URL ++
      str "\" target=\"_blank\">Gtech website</a>") s

/-- The `catch` fallback of lines 1545-1549 — and also the final
newline-to-`<br/>` conversion of line 1544. -/
def newlineOnly (response : Str) : Str :=
  replaceAllLit (str "\n") (str "<br/>") response

/-- The step computations of one call: per-product steps, per-category
steps (each guarded by its own inner `try/catch`), and the remaining body
steps of the outer `try` (lines 1380-1544).  `none` models a throw. -/
structure LinkFormatter where
  productSteps : List (Str → Option Str)
  categorySteps : List (Str → Option Str)
  bodySteps : List (Str → Option Str)

/-- Run steps each wrapped in an inner `try/catch`: a throwing step is
logged and skipped, processing continues with the accumulated text
(chatbot.ts lines 1315-1318, 1373-1376). -/
def applyInner : List (Str → Option Str) → Str → Str
  | [], s => s
  | f :: fs, s =>
    match f s with
    | some s2 => applyInner fs s2
    | none => applyInner fs s

/-- Run the unguarded body steps: a throw propagates (to the outer catch). -/
def applyBody : List (Str → Option Str) → Str → Option Str
  | [], s => some s
  | f :: fs, s =>
    match f s with
    | some s2 => applyBody fs s2
    | none => none

/-- The invalid-input message (chatbot.ts line 1259). -/
def fmtInvalidMsg : Str :=
  str "I apologize, but I encountered an error formatting the response."

/-- `formatResponseWithLinks` (chatbot.ts lines 1256-1552) over the step
model: the invalid-input guard, the inner-guarded product and category
passes, the body steps, and the outer catch that degrades to
newline-conversion only. -/
def formatResponseWithLinks (F : LinkFormatter) (response : Str) : Str :=
  if response = [] then fmtInvalidMsg
  else
    match applyBody F.bodySteps
        (applyInner F.categorySteps (applyInner F.productSteps response)) with
    | some s => s
    | none => newlineOnly response

/-- Claim C3 (amended): the formatter is total, and its failure policy is
two-tier: an exception in an unguarded body step degrades the whole call to
newline-only conversion of the original response (the outer catch), while
an exception in a per-product step merely skips that product and formatting
continues (the inner catch) — it does not degrade the call. -/
theorem C3_failure_policy (response : Str) (h0 : response ≠ []) :
    (∀ F : LinkFormatter,
      applyBody F.bodySteps
        (applyInner F.categorySteps (applyInner F.productSteps response)) =
          none →
      formatResponseWithLinks F response = newlineOnly response) ∧
    (∀ f fs cs bs, f response = none →
      formatResponseWithLinks ⟨f :: fs, cs, bs⟩ response =
        formatResponseWithLinks ⟨fs, cs, bs⟩ response) := by
  constructor
  · intro F hb
    rw [formatResponseWithLinks, if_neg h0, hb]
  · intro f fs cs bs hf
    rw [formatResponseWithLinks, if_neg h0, formatResponseWithLinks, if_neg h0]
    show (match applyBody bs (applyInner cs
        (match f response with
         | some s2 => applyInner fs s2
         | none => applyInner fs response)) with
      | some s => s
      | none => newlineOnly response) = _
    rw [hf]

/-- Witness for C3's amended theorem: a failing body step degrades the call
to newline-only conversion, and a failing product step is skipped. -/
theorem C3_failure_policy_witness :
    (str "hi" : Str) ≠ [] ∧
    formatResponseWithLinks ⟨[], [], [fun _ => none]⟩ (str "hi") =
      newlineOnly (str "hi") ∧
    formatResponseWithLinks ⟨[fun _ => none], [], []⟩ (str "hi") =
      formatResponseWithLinks ⟨[], [], []⟩ (str "hi") :=
  ⟨by decide, (C3_failure_policy (str "hi") (by decide)).1 ⟨[], [], [fun _ => none]⟩ rfl,
    (C3_failure_policy (str "hi") (by decide)).2 (fun _ => none) [] [] [] rfl⟩

/-- Claim C3 (counterexample): it is not true that a throwing processing
step makes the function return the input with only newlines converted.
With the first product's step throwing, the later body step of line 1380
still links `gtech website`, so the output keeps link conversion. -/
theorem C3_inner_throw_still_formats :
    formatResponseWithLinks
        ⟨[fun _ => none], [],
          [fun s => some (gtechWebsiteStep s), fun s => some (newlineOnly s)]⟩
        (str "see the gtech website") ≠
      newlineOnly (str "see the gtech website") := by
  decide

/-! ## Claims C5-C7: the scraper cache, dedup and sale views (src/unnamed/part_005)

The scraper's module state (`productsCache`, `websiteDataCache`,
`cacheTimestamp`, lines 38-41) is modelled as an explicit state record, and
`Date.now()` as an `Int` parameter.  Network crawling is external I/O: a
call's crawl outcome is passed as an `Option` (`none` models the `catch`
path).  An extra `Bool` in the result records whether the function went past
its cache check (i.e. re-crawled) — `false` means the cached snapshot was
returned untouched. -/

/-- The `Product` interface of the scraper (optional fields that matter to
the claims are `Option`; string truthiness is emptiness). -/
structure Product where
  name : Str
  price : Str
  originalPrice : Option Str
  description : Str
  category : Str
  url : Str
deriving DecidableEq

/-- The `ProductData` result shape of `fetchGtechProducts`. -/
structure ProductData where
  products : List Product
  categories : List Str
  promotions : List Product
  sales : List Product
  sections : List Str
deriving DecidableEq

/-- The `WebsiteData` result shape of `getComprehensiveWebsiteData`. -/
structure WebsiteData where
  products : List Product
  categories : List Str
  promotions : List Product
  sales : List Product
  blackFriday : List Product
  sections : List Str
  trending : List Product
  hasSales : Bool
  hasBlackFriday : Bool
deriving DecidableEq

/-- `checkForSales`'s result shape. -/
structure SalesInfo where
  hasSales : Bool
  hasBlackFriday : Bool
  saleText : Str
deriving DecidableEq

/-- The module-level cache cells (part_005 lines 38-40). -/
structure CacheState where
  productsCache : Option ProductData
  websiteDataCache : Option WebsiteData
  cacheTimestamp : Int
deriving DecidableEq

/-- `CACHE_DURATION = 5 * 60 * 1000` (part_005 line 41). -/
def CACHE_DURATION : Int := 5 * 60 * 1000

/-- JavaScript truthiness of `p.originalPrice` (an optional string). -/
def origTruthy (p : Product) : Bool :=
  match p.originalPrice with
  | some op => !op.isEmpty
  | none => false

/-- `self.findIndex(p => p.name.toLowerCase() === product.name.toLowerCase())`
(part_005 line 359). -/
def findIndexName (nm : Str) : List Product → Option Nat
  | [] => none
  | p :: l =>
    if lcStr p.name = nm then some 0 else (findIndexName nm l).map (· + 1)

/-- The index-aware body of the duplicate-removal filter. -/
def dedupGo (orig : List Product) : Nat → List Product → List Product
  | _, [] => []
  | i, p :: rest =>
    if findIndexName (lcStr p.name) orig == some i then
      p :: dedupGo orig (i + 1) rest
    else dedupGo orig (i + 1) rest

/-- The duplicate-removal filter (part_005 lines 358-360): keep a product
iff its index equals the first index with the same lowercased name. -/
def dedupByName (l : List Product) : List Product := dedupGo l 0 l

/-- The default catalog returned when crawling fails with no cache
(part_005 lines 386-392). -/
def defaultProductData : ProductData :=
  { products := [],
    categories := [str "Floorcare", str "Power Tools", str "Garden Tools",
      str "Hair Care"],
    promotions := [], sales := [], sections := [] }

/-- `fetchGtechProducts` (part_005 lines 224-394): serve the cache inside
the TTL; otherwise crawl (`crawl` is the outcome of the try block, `none`
the catch), update the cache cells on success, fall back to the stale cache
or the default on failure. -/
def fetchGtechProducts (st : CacheState) (now : Int)
    (crawl : Option ProductData) : ProductData × CacheState × Bool :=
  match st.productsCache with
  | some pc =>
    if now - st.cacheTimestamp < CACHE_DURATION then (pc, st, false)
    else
      match crawl with
      | some pd =>
        (pd, { st with
          productsCache := some pd
          cacheTimestamp := now }, true)
      | none => (pc, st, true)
  | none =>
    match crawl with
    | some pd =>
      (pd, { st with
        productsCache := some pd
        cacheTimestamp := now }, true)
    | none => (defaultProductData, st, true)

/-- The sale filter of `getComprehensiveWebsiteData` (part_005 line 429):
`p && p.name && p.name.trim() && p.originalPrice`. -/
def saleProducts (products : List Product) : List Product :=
  products.filter (fun p =>
    !p.name.isEmpty && !(jsTrim p.name).isEmpty && origTruthy p)

/-- The Black Friday product test (part_005 lines 432-450). -/
def isBlackFridayProduct (si : SalesInfo) (p : Product) : Bool :=
  if p.name.isEmpty then false
  else
    containsSub (lcStr p.name) (str "black friday") ||
    containsSub (lcStr p.name) (str "blackfriday") ||
    containsSub (lcStr p.category) (str "black friday") ||
    containsSub (lcStr p.category) (str "blackfriday") ||
    containsSub (lcStr p.description) (str "black friday") ||
    containsSub (lcStr p.description) (str "blackfriday") ||
    containsSub (lcStr p.url) (str "black-friday") ||
    containsSub (lcStr p.url) (str "blackfriday") ||
    (si.hasBlackFriday && origTruthy p)

/-- The snapshot construction of `getComprehensiveWebsiteData` (part_005
lines 428-470). -/
def buildWebsiteData (data : ProductData) (si : SalesInfo) : WebsiteData :=
  let sale := saleProducts data.products
  let bf0 := data.products.filter (isBlackFridayProduct si)
  let bf := if si.hasBlackFriday && bf0.isEmpty && !sale.isEmpty
    then sale.take 30 else bf0
  let trending := (data.products.filter origTruthy).take 10
  { products := data.products, categories := data.categories,
    promotions := data.promotions, sales := sale, blackFriday := bf,
    sections := data.sections, trending := trending,
    hasSales := si.hasSales, hasBlackFriday := si.hasBlackFriday }

/-- The safe default of `getComprehensiveWebsiteData`'s catch (lines
415-425). -/
def emptyWebsiteData : WebsiteData :=
  { products := [], categories := [], promotions := [], sales := [],
    blackFriday := [], sections := [], trending := [], hasSales := false,
    hasBlackFriday := false }

/-- `getComprehensiveWebsiteData` (part_005 lines 397-473): serve the cache
inside the TTL; otherwise run the inner fetches (`fetched` carries their
result and the cache state they left behind; `none` is the catch path) and
build and store the snapshot.  Only `fetchGtechProducts` updates
`cacheTimestamp`. -/
def getComprehensiveWebsiteData (st : CacheState) (now : Int)
    (fetched : Option (ProductData × SalesInfo × CacheState)) :
    WebsiteData × CacheState × Bool :=
  match st.websiteDataCache with
  | some wc =>
    if now - st.cacheTimestamp < CACHE_DURATION then (wc, st, false)
    else
      match fetched with
      | none => (emptyWebsiteData, st, true)
      | some (data, si, st2) =>
        let wd := buildWebsiteData data si
        (wd, { st2 with websiteDataCache := some wd }, true)
  | none =>
    match fetched with
    | none => (emptyWebsiteData, st, true)
    | some (data, si, st2) =>
      let wd := buildWebsiteData data si
      (wd, { st2 with websiteDataCache := some wd }, true)

/-- Claim C5: the catalog caches have a 5-minute TTL.  Within the TTL both
`fetchGtechProducts` and `getComprehensiveWebsiteData` return the cached
snapshot itself with the state untouched and without running the crawl
(third component `false`); at or past the TTL they go to the crawl path
(third component `true`). -/
theorem C5_cache_ttl (pc : ProductData) (wc : WebsiteData)
    (w : Option WebsiteData) (pcc : Option ProductData) (t₁ t₂ : Int)
    (crawl : Option ProductData)
    (fetched : Option (ProductData × SalesInfo × CacheState)) :
    CACHE_DURATION = 300000 ∧
    (t₂ - t₁ < CACHE_DURATION →
      fetchGtechProducts ⟨some pc, w, t₁⟩ t₂ crawl =
        (pc, ⟨some pc, w, t₁⟩, false) ∧
      getComprehensiveWebsiteData ⟨pcc, some wc, t₁⟩ t₂ fetched =
        (wc, ⟨pcc, some wc, t₁⟩, false)) ∧
    (¬ (t₂ - t₁ < CACHE_DURATION) →
      (fetchGtechProducts ⟨some pc, w, t₁⟩ t₂ crawl).2.2 = true ∧
      (getComprehensiveWebsiteData ⟨pcc, some wc, t₁⟩ t₂ fetched).2.2 = true) := by
  refine ⟨rfl, fun h => ⟨?_, ?_⟩, fun h => ⟨?_, ?_⟩⟩
  · simp [fetchGtechProducts, if_pos h]
  · simp [getComprehensiveWebsiteData, if_pos h]
  · cases crawl <;> simp [fetchGtechProducts, if_neg h]
  · rcases fetched with _ | ⟨data, si, st2⟩ <;>
      simp [getComprehensiveWebsiteData, if_neg h]

/-- Witness for C5 at concrete times: a fetch 1 second after the cache
write is a cache hit; one 10 minutes later re-crawls. -/
theorem C5_cache_ttl_witness :
    ((1000 : Int) - 0 < CACHE_DURATION ∧
      fetchGtechProducts ⟨some defaultProductData, none, 0⟩ 1000 none =
        (defaultProductData, ⟨some defaultProductData, none, 0⟩, false)) ∧
    (¬ ((600000 : Int) - 0 < CACHE_DURATION) ∧
      (fetchGtechProducts ⟨some defaultProductData, none, 0⟩ 600000 none).2.2 =
        true) :=
  ⟨⟨by decide, ((C5_cache_ttl defaultProductData emptyWebsiteData none none 0
      1000 none none).2.1 (by decide)).1⟩,
   ⟨by decide, ((C5_cache_ttl defaultProductData emptyWebsiteData none none 0
      600000 none none).2.2 (by decide)).1⟩⟩

/-- Claim C6 (amended): deduplication is strictly first-wins.  Of two
products with the same case-insensitive name the first record survives
unchanged, whatever the two records contain — nothing is merged. -/
theorem C6_dedup_first_wins (p q : Product)
    (h : lcStr q.name = lcStr p.name) : dedupByName [p, q] = [p] := by
  simp [dedupByName, dedupGo, findIndexName, h]

/-- Witness for C6's amended theorem on two concrete same-name records. -/
theorem C6_dedup_first_wins_witness :
    lcStr (str "AirRam") = lcStr (str "airram") ∧
    dedupByName
      [⟨str "airram", str "£199", none, [], str "General", str "u1"⟩,
       ⟨str "AirRam", str "£199", some (str "£249"), str "better", str "Sale",
        str "u2"⟩] =
      [⟨str "airram", str "£199", none, [], str "General", str "u1"⟩] :=
  ⟨by decide, C6_dedup_first_wins _ _ (by decide)⟩

/-- Claim C6 (counterexample): no merging happens.  The first record has no
description and no originalPrice; the duplicate carries both; dedup returns
only the first record, so the richer fields are dropped. -/
theorem C6_dedup_drops_richer_fields :
    dedupByName
      [⟨str "orca", str "£299", none, [], str "General", str "u1"⟩,
       ⟨str "Orca", str "£299", some (str "£399"), str "wet and dry vacuum",
        str "Sale", str "u2"⟩] =
      [⟨str "orca", str "£299", none, [], str "General", str "u1"⟩] ∧
    (⟨str "orca", str "£299", none, [], str "General", str "u1"⟩ :
      Product).originalPrice = none ∧
    (⟨str "Orca", str "£299", some (str "£399"), str "wet and dry vacuum",
      str "Sale", str "u2"⟩ : Product).originalPrice = some (str "£399") := by
  refine ⟨by decide, rfl, rfl⟩

/-- Claim C7: in every snapshot built by `getComprehensiveWebsiteData`, a
product with a non-blank name is in the `sales` view iff it is one of the
snapshot's products and its `originalPrice` is set and non-empty. -/
theorem C7_sales_iff (data : ProductData) (si : SalesInfo) (p : Product)
    (hname : jsTrim p.name ≠ []) :
    p ∈ (buildWebsiteData data si).sales ↔
      p ∈ data.products ∧ origTruthy p = true := by
  have hne : p.name ≠ [] := by
    intro he
    rw [he] at hname
    exact hname rfl
  have h1 : p.name.isEmpty = false := by
    cases hn : p.name with
    | nil => exact absurd hn hne
    | cons a l => rfl
  have h2 : (jsTrim p.name).isEmpty = false := by
    cases hn : jsTrim p.name with
    | nil => exact absurd hn hname
    | cons a l => rfl
  simp [buildWebsiteData, saleProducts, List.mem_filter, h1, h2]

/-- Witness for C7 at a concrete snapshot: a sale product with an
originalPrice is in the sales view. -/
theorem C7_sales_iff_witness :
    jsTrim (str "airram") ≠ [] ∧
    ((⟨str "airram", str "£199", some (str "£249"), [], str "Sale",
        str "u"⟩ : Product) ∈
      (buildWebsiteData
        ⟨[⟨str "airram", str "£199", some (str "£249"), [], str "Sale",
          str "u"⟩], [], [], [], []⟩
        ⟨false, false, []⟩).sales ↔
      (⟨str "airram", str "£199", some (str "£249"), [], str "Sale",
        str "u"⟩ : Product) ∈
        (⟨[⟨str "airram", str "£199", some (str "£249"), [], str "Sale",
          str "u"⟩], [], [], [], []⟩ : ProductData).products ∧
      origTruthy ⟨str "airram", str "£199", some (str "£249"), [], str "Sale",
        str "u"⟩ = true) :=
  ⟨by decide, C7_sales_iff _ _ _ (by decide)⟩

/-! ## Claims C8-C9: processChatMessage and the troubleshooting guides
(chatbot.ts lines 517-584, 1243-1253, 1692-1871)

`processChatMessage` wraps its whole body in `try` (line 518); the catch
(lines 1243-1253) returns a fixed apology naming the support contacts.  The
`action:` branch (lines 538-584) strips the prefix, fetches website data
(with its own inner catch and timeout fallback, so that fetch cannot throw
out) and returns `handleProblemSelection` directly — no Generation Oracle
(OpenAI) call happens on that path.  The rest of the body (AI paths and
fallbacks) is abstracted as an `Except Str ChatResponse` outcome: `.error`
models an exception whose payload is the error text, which the catch only
logs. -/

/-- `SUPPORT_EMAIL` (chatbot.ts line 487). -/
def SUPPORT_EMAIL : Str := str "support@gtech.co.uk"

/-- `SUPPORT_PHONE` (chatbot.ts line 488). -/
def SUPPORT_PHONE : Str := str "08000 308 794"

/-- The hair-care variant of the power-issues guide (chatbot.ts lines 1712-1727); it has no Battery Check section. -/
def guidePowerHair : Str :=
  str "Here are steps to troubleshoot power issues:\n\n1. **Check the Power Source**\n   â€¢ Ensure the device is properly plugged in\n   â€¢ Try a different power outlet\n   â€¢ Check if the power button is fully engaged\n   â€¢ Inspect the power cord for any damage\n\n2. **Reset the Device**\n   â€¢ Turn off and unplug for 30 seconds\n   â€¢ Plug back in and try again\n\n3. **Still Not Working?**\n   â€¢ Contact our support team for further assistance\n   â€¢ ðŸ“ž Phone: " ++
  SUPPORT_PHONE ++
  str "\n   â€¢ ðŸ“§ Email: " ++
  SUPPORT_EMAIL

/-- The default power-issues guide (chatbot.ts lines 1727-1746), with the `2. **Battery Check**` section. -/
def guidePowerDefault : Str :=
  str "Here are steps to troubleshoot power issues:\n\n1. **Check the Power Source**\n   â€¢ Ensure the device is properly plugged in or the battery is charged\n   â€¢ Try a different power outlet or charging cable\n   â€¢ Check if the power button is fully engaged\n\n2. **Battery Check**\n   â€¢ If battery-powered, ensure it's fully charged\n   â€¢ Try removing and reinserting the battery\n   â€¢ Check for any visible damage to the battery\n\n3. **Reset the Device**\n   â€¢ Turn off and unplug for 30 seconds\n   â€¢ Plug back in and try again\n\n4. **Still Not Working?**\n   â€¢ Contact our support team for further assistance\n   â€¢ ðŸ“ž Phone: " ++
  SUPPORT_PHONE ++
  str "\n   â€¢ ðŸ“§ Email: " ++
  SUPPORT_EMAIL

/-- The charging guide (chatbot.ts lines 1748-1766). -/
def guideCharging : Str :=
  str "Here's how to fix charging problems:\n\n1. **Check the Charger**\n   â€¢ Ensure you're using the original charger\n   â€¢ Check the charger cable for damage\n   â€¢ Try a different power outlet\n\n2. **Charging Port**\n   â€¢ Clean the charging port gently with a dry cloth\n   â€¢ Ensure no debris is blocking the port\n   â€¢ Check for any visible damage\n\n3. **Battery Issues**\n   â€¢ Remove and reinsert the battery\n   â€¢ Let the device charge for at least 2 hours\n   â€¢ If battery is old, it may need replacement\n\n4. **Still Having Issues?**\n   â€¢ Contact support: " ++
  SUPPORT_PHONE ++
  str " or " ++
  SUPPORT_EMAIL

/-- The mechanical-issues guide (chatbot.ts lines 1768-1788). -/
def guideMechanical : Str :=
  str "Mechanical issues troubleshooting:\n\n1. **Check for Blockages**\n   â€¢ Turn off and unplug the device\n   â€¢ Remove any visible blockages carefully\n   â€¢ Check cutting blades/mechanisms for damage\n\n2. **Lubrication**\n   â€¢ Some mechanical parts may need lubrication\n   â€¢ Refer to your user manual for specific guidance\n   â€¢ Use only recommended lubricants\n\n3. **Wear and Tear**\n   â€¢ Check for worn-out parts\n   â€¢ Blades may need sharpening or replacement\n   â€¢ Contact support for replacement parts\n\n4. **Need More Help?**\n   â€¢ ðŸ“ž " ++
  SUPPORT_PHONE ++
  str "\n   â€¢ ðŸ“§ " ++
  SUPPORT_EMAIL ++
  str "\n   â€¢ Visit: " ++
  GTECH_BASE_URL ++
  str " for parts and service"

/-- The battery guide (chatbot.ts lines 1790-1809). -/
def guideBattery : Str :=
  str "Battery troubleshooting steps:\n\n1. **Battery Life**\n   â€¢ Charge fully before first use (may take 4-6 hours)\n   â€¢ Avoid leaving battery completely drained\n   â€¢ Store in a cool, dry place\n\n2. **Charging Habits**\n   â€¢ Don't overcharge (unplug when full)\n   â€¢ Use only the original charger\n   â€¢ Charge at room temperature\n\n3. **Battery Replacement**\n   â€¢ If battery is over 2 years old, consider replacement\n   â€¢ Check warranty status\n   â€¢ Contact support for battery replacement options\n\n4. **Support**\n   â€¢ ðŸ“ž " ++
  SUPPORT_PHONE ++
  str "\n   â€¢ ðŸ“§ " ++
  SUPPORT_EMAIL

/-- The blockage guide (chatbot.ts lines 1811-1833). -/
def guideBlockage : Str :=
  str "How to clear blockages:\n\n1. **Safety First**\n   â€¢ Turn off and unplug the device\n   â€¢ Wait for moving parts to stop completely\n\n2. **Clear Blockages**\n   â€¢ Remove any visible debris\n   â€¢ Use a soft brush or cloth\n   â€¢ Never use sharp objects\n\n3. **Check Components**\n   â€¢ Inspect cutting mechanisms\n   â€¢ Ensure all parts are properly assembled\n   â€¢ Check for damage\n\n4. **Prevention**\n   â€¢ Clean regularly after use\n   â€¢ Avoid using on wet surfaces (if applicable)\n   â€¢ Follow maintenance schedule\n\n5. **Still Blocked?**\n   â€¢ Contact support: " ++
  SUPPORT_PHONE

/-- The generic fallback guide `troubleshoot_other` (chatbot.ts lines 1835-1857). -/
def guideOther : Str :=
  str "For other issues, here's how we can help:\n\n1. **Describe the Problem**\n   â€¢ What exactly is happening?\n   â€¢ When did it start?\n   â€¢ Any error messages or unusual sounds?\n\n2. **Quick Checks**\n   â€¢ Review the user manual\n   â€¢ Check our FAQ section online\n   â€¢ Look for similar issues in support forums\n\n3. **Get Support**\n   â€¢ ðŸ“ž Call us: " ++
  SUPPORT_PHONE ++
  str "\n   â€¢ ðŸ“§ Email: " ++
  SUPPORT_EMAIL ++
  str "\n   â€¢ ðŸŒ Visit: " ++
  GTECH_BASE_URL ++
  str "/support\n\n4. **Warranty**\n   â€¢ Check if your product is under warranty\n   â€¢ We offer 2-year warranty on most products\n   â€¢ 30-day money-back guarantee\n\nOur support team is here to help!"

/-- The response record (the claims only concern the `response` text). -/
structure ChatResponse where
  response : Str
deriving DecidableEq

/-- The conversation-context fields that `handleProblemSelection` reads
(chatbot.ts lines 1698-1700). -/
structure Ctx where
  productModelNumber : Option Str
  lastProductName : Option Str
  lastProductCategory : Option Str
deriving DecidableEq

/-- The hair-care product test (chatbot.ts lines 1698-1709). -/
def isHairCareProduct (ctx : Ctx) : Bool :=
  let modelLower := lcStr (ctx.productModelNumber.getD [])
  let productName := lcStr (ctx.lastProductName.getD [])
  let productCategory := lcStr (ctx.lastProductCategory.getD [])
  containsSub modelLower (str "dryonic") ||
  containsSub modelLower (str "styleonic") ||
  containsSub modelLower (str "hair") ||
  containsSub modelLower (str "dryer") ||
  containsSub modelLower (str "straightener") ||
  containsSub productName (str "hair") ||
  containsSub productName (str "dryer") ||
  containsSub productName (str "straightener") ||
  containsSub productCategory (str "hair")

/-- The `troubleshootingGuides` record lookup (chatbot.ts lines 1711-1858):
`none` models an absent key (`undefined`). -/
def troubleshootingGuides (hair : Bool) (action : Str) : Option Str :=
  if action = str "troubleshoot_power" then
    some (if hair then guidePowerHair else guidePowerDefault)
  else if action = str "troubleshoot_charging" then some guideCharging
  else if action = str "troubleshoot_mechanical" then some guideMechanical
  else if action = str "troubleshoot_battery" then some guideBattery
  else if action = str "troubleshoot_blockage" then some guideBlockage
  else if action = str "troubleshoot_other" then some guideOther
  else none

/-- `handleProblemSelection` (chatbot.ts lines 1692-1871): look the action
up, fall back to `troubleshoot_other`, and return the guide directly.  The
`websiteData` parameter is accepted and ignored, as in the source. -/
def handleProblemSelection (action : Str) (ctx : Ctx)
    (websiteData : WebsiteData) : ChatResponse :=
  { response := (troubleshootingGuides (isHairCareProduct ctx) action).getD
      guideOther }

/-- The catch response of `processChatMessage` (chatbot.ts line 1251). -/
def apologyMsg : Str :=
  str "I apologize, but I encountered an issue processing your request. Please try again or contact our support team at " ++
  SUPPORT_EMAIL ++ str " or " ++ SUPPORT_PHONE ++ str " for assistance."

/-- `processChatMessage` (chatbot.ts lines 517-1254): the `action:` branch
dispatches to `handleProblemSelection`; every other path is the abstract
body outcome `rest`; the top-level catch maps any exception to the fixed
apology. -/
def processChatMessage (message : Str) (ctx : Ctx) (wd : WebsiteData)
    (rest : Except Str ChatResponse) : ChatResponse :=
  let body : Except Str ChatResponse :=
    if (str "action:").isPrefixOf message then
      .ok (handleProblemSelection
        (jsTrim (replaceFirst (str "action:") [] message)) ctx wd)
    else rest
  match body with
  | .ok r => r
  | .error _ => { response := apologyMsg }

/-- Claim C8: `processChatMessage` is total and its top-level catch maps any
body exception — whatever the error text — to the fixed apology naming the
support email and phone; a normal body outcome is returned as-is.  The
apology is a constant, so no raw error or stack text reaches the reply. -/
theorem C8_never_throws (message e : Str) (ctx : Ctx) (wd : WebsiteData)
    (r : ChatResponse) :
    ((str "action:").isPrefixOf message = false →
      processChatMessage message ctx wd (.error e) = ⟨apologyMsg⟩ ∧
      processChatMessage message ctx wd (.ok r) = r) ∧
    containsSub apologyMsg SUPPORT_EMAIL = true ∧
    containsSub apologyMsg SUPPORT_PHONE = true := by
  refine ⟨fun h => ⟨?_, ?_⟩, by decide, by decide⟩
  · simp [processChatMessage, h]
  · simp [processChatMessage, h]

/-- Witness for C8 at a concrete message and a concrete thrown error. -/
theorem C8_never_throws_witness :
    (str "action:").isPrefixOf (str "hello") = false ∧
    processChatMessage (str "hello") ⟨none, none, none⟩ emptyWebsiteData
      (.error (str "TypeError: x is undefined")) = ⟨apologyMsg⟩ :=
  ⟨by decide,
    ((C8_never_throws (str "hello") (str "TypeError: x is undefined")
      ⟨none, none, none⟩ emptyWebsiteData ⟨[]⟩).1 (by decide)).1⟩

set_option maxRecDepth 10000 in
/-- Claim C9: an `action:<x>` message resolves `<x>` (trimmed) against the
fixed guide table with `troubleshoot_other` as fallback and returns the
guide directly — the result is independent of the website data and of the
abstract body outcome (so no Generation Oracle is consulted); and the
power-issues guide for a hair-care session omits the `Battery Check`
section that the default guide contains. -/
theorem C9_action_dispatch (action : Str) (ctx : Ctx) (wd wd' : WebsiteData)
    (rest rest' : Except Str ChatResponse) :
    processChatMessage (str "action:" ++ action) ctx wd rest =
      ⟨(troubleshootingGuides (isHairCareProduct ctx) (jsTrim action)).getD
        guideOther⟩ ∧
    processChatMessage (str "action:" ++ action) ctx wd rest =
      processChatMessage (str "action:" ++ action) ctx wd' rest' ∧
    troubleshootingGuides true (str "troubleshoot_power") =
      some guidePowerHair ∧
    troubleshootingGuides false (str "troubleshoot_power") =
      some guidePowerDefault ∧
    containsSub guidePowerHair (str "Battery Check") = false ∧
    containsSub guidePowerDefault (str "Battery Check") = true := by
  have hpre : (str "action:").isPrefixOf (str "action:" ++ action) = true := by
    rw [List.isPrefixOf_iff_prefix]
    exact List.prefix_append _ _
  have hrepl : replaceFirst (str "action:") [] (str "action:" ++ action) =
      action := by
    rw [(by decide : str "action:" = 'a' :: str "ction:"), replaceFirst,
      splitFirst_self_append]
    simp
  refine ⟨?_, ?_, rfl, rfl, by decide, by decide⟩
  · simp [processChatMessage, hpre, hrepl, handleProblemSelection]
  · simp [processChatMessage, hpre, hrepl, handleProblemSelection]

/-! ## Claim C10: searchKnowledge (src/lib/knowledgeData.ts lines 5-34)

`knowledge` is an imported JSON value: `Option (List Row)` models it, with
`none` the non-array case of the `Array.isArray` guard.  A row's keys are
irrelevant (only `Object.values(row).join(" ")` is used), so a row is its
value list.  The whole body sits in a `try` whose catch returns `[]`; the
`err` flag injects that path.  JavaScript's `Array.prototype.sort` is
stable, matching the stable `List.insertionSort`. -/

/-- A knowledge row: the values of the JSON object. -/
structure Row where
  values : List Str
deriving DecidableEq

/-- `Object.values(row).join(" ").toLowerCase()` (knowledgeData.ts
line 17). -/
def rowText (r : Row) : Str := lcStr (List.intercalate (str " ") r.values)

/-- `q.split(/\s+/)` token runs (knowledgeData.ts line 20): the maximal
non-whitespace runs (a leading empty token of the JavaScript split is
dropped here; the `if (word ...)` guard discards it anyway). -/
def splitWsF : Nat → Str → List Str
  | 0, _ => []
  | _ + 1, [] => []
  | fuel + 1, s =>
    let s1 := s.dropWhile isWs
    match s1 with
    | [] => []
    | _ =>
      s1.takeWhile (fun c => !isWs c) ::
        splitWsF fuel (s1.dropWhile (fun c => !isWs c))

def splitWs (s : Str) : List Str := splitWsF (s.length + 1) s

/-- The token-overlap score (knowledgeData.ts lines 18-22): the number of
query tokens that are non-empty and occur in the row's flattened text. -/
def scoreRow (q : Str) (r : Row) : Nat :=
  ((splitWs q).filter
    (fun w => !w.isEmpty && containsSub (rowText r) w)).length

/-- `searchKnowledge` (knowledgeData.ts lines 5-34): lowercase the query,
score each row, keep positive scores, sort by score descending (stable),
take `limit`, return the rows; `[]` when the knowledge value is not an
array or anything throws (`err`). -/
def searchKnowledge (err : Bool) (knowledge : Option (List Row))
    (query : Str) (limit : Nat) : List Row :=
  if err then []
  else
    match knowledge with
    | none => []
    | some rows =>
      ((((List.insertionSort (fun a b => b.2 ≤ a.2)
        ((rows.map (fun r => (r, scoreRow (lcStr query) r))).filter
          (fun x => decide (0 < x.2)))).take limit).map Prod.fst))

/-- Claim C10: `searchKnowledge` returns `[]` on a thrown error and on a
non-array knowledge value; returns at most `limit` rows; every returned row
is a knowledge row whose score is strictly positive (it contains at least
one query token); and the returned rows are ordered by non-increasing
score. -/
theorem C10_searchKnowledge (kn : List Row) (okn : Option (List Row))
    (query : Str) (limit : Nat) (err : Bool) :
    searchKnowledge true okn query limit = [] ∧
    searchKnowledge err none query limit = [] ∧
    (searchKnowledge err okn query limit).length ≤ limit ∧
    (∀ r ∈ searchKnowledge false (some kn) query limit,
      r ∈ kn ∧ 0 < scoreRow (lcStr query) r) ∧
    List.Pairwise
      (fun a b => scoreRow (lcStr query) b ≤ scoreRow (lcStr query) a)
      (searchKnowledge false (some kn) query limit) := by
  have hval : ∀ x ∈ (kn.map (fun r => (r, scoreRow (lcStr query) r))).filter
      (fun x => decide (0 < x.2)), x.2 = scoreRow (lcStr query) x.1 ∧
      x.1 ∈ kn ∧ 0 < x.2 := by
    intro x hx
    rcases List.mem_filter.mp hx with ⟨hm, hpos⟩
    rcases List.mem_map.mp hm with ⟨r, hr, hxr⟩
    subst hxr
    exact ⟨rfl, hr, by simpa using hpos⟩
  refine ⟨rfl, ?_, ?_, ?_, ?_⟩
  · cases err <;> rfl
  · cases err
    · cases okn with
      | none => simp [searchKnowledge]
      | some rows =>
        simp only [searchKnowledge, List.length_map, if_neg Bool.false_ne_true]
        exact List.length_take_le _ _
    · simp [searchKnowledge]
  · intro r hr
    simp only [searchKnowledge, if_neg Bool.false_ne_true] at hr
    rcases List.mem_map.mp hr with ⟨x, hx, hxr⟩
    subst hxr
    have hx2 := (List.perm_insertionSort _ _).mem_iff.mp
      (List.mem_of_mem_take hx)
    rcases hval x hx2 with ⟨he, hm, hp⟩
    exact ⟨hm, he ▸ hp⟩
  · simp only [searchKnowledge, if_neg Bool.false_ne_true]
    haveI : IsTotal (Row × Nat) (fun a b => b.2 ≤ a.2) :=
      ⟨fun a b => by omega⟩
    haveI : IsTrans (Row × Nat) (fun a b => b.2 ≤ a.2) :=
      ⟨fun a b c h1 h2 => by omega⟩
    have hsorted := List.sorted_insertionSort
      (fun a b : Row × Nat => b.2 ≤ a.2)
      ((kn.map (fun r => (r, scoreRow (lcStr query) r))).filter
        (fun x => decide (0 < x.2)))
    have htake := List.Pairwise.sublist (List.take_sublist limit _) hsorted
    rw [List.pairwise_map]
    refine htake.imp_of_mem ?_
    intro a b ha hb hab
    have ha2 := hval a ((List.perm_insertionSort _ _).mem_iff.mp
      (List.mem_of_mem_take ha))
    have hb2 := hval b ((List.perm_insertionSort _ _).mem_iff.mp
      (List.mem_of_mem_take hb))
    rw [← ha2.1, ← hb2.1]
    exact hab

/-- Witness for C10 at a concrete knowledge base and query. -/
theorem C10_searchKnowledge_witness :
    (⟨[str "gtech", str "airram vacuum"]⟩ : Row) ∈
      searchKnowledge false (some [⟨[str "gtech", str "airram vacuum"]⟩])
        (str "gtech") 5 ∧
    ((⟨[str "gtech", str "airram vacuum"]⟩ : Row) ∈
      [(⟨[str "gtech", str "airram vacuum"]⟩ : Row)] ∧
      0 < scoreRow (lcStr (str "gtech"))
        ⟨[str "gtech", str "airram vacuum"]⟩) :=
  ⟨by decide,
    (C10_searchKnowledge [⟨[str "gtech", str "airram vacuum"]⟩]
      (some [⟨[str "gtech", str "airram vacuum"]⟩]) (str "gtech") 5
      false).2.2.2.1 ⟨[str "gtech", str "airram vacuum"]⟩ (by decide)⟩
